import Mathlib

/-!
# yall: fan-out sink, writer sink, handler chain and formatters

A shallow embedding of `fanout.go`, `sink.go`, `handler.go` and `formatter.go`
of the `yall` logging backend, followed by theorems about the embedded
functions.

Conventions of the embedding.

* A Go interface value of type `Sink` is `Option SinkRef`: `none` is the nil
  interface, `some r` is a sink whose identity (what `==` compares) is `r`.
  A method call on a nil interface is a run-time panic; functions that may
  panic return `Option`, with `none` standing for the panic.
* Slices are a header (backing array, length) over a heap of backing arrays,
  so that aliasing between two headers over one array is visible.
* The sinks behind a `Sink` value, the `io.Writer` of a writer sink and the
  formatter are external: their behaviour is a parameter. Calls made on them are
  recorded in a log carried next to their state.
* Text and byte buffers are lists of characters.
-/

set_option autoImplicit false

namespace Yall

/-! ## Host data model (`context`, `errors`, `log/slog`) -/

/-- A `context.Context` value; only its identity matters here. -/
abbrev Context := Nat

/-- Go `slog.Level` is an integer; a higher level is more severe. -/
abbrev Level := Int

/-- The constant `slog.LevelInfo`. -/
def LevelInfo : Level := 0

/-- A byte buffer or string, as the sequence of its characters. -/
abbrev Buf := List Char

/-- Go `error` values that are not nil. `atom` is an error with no `Unwrap`
method, `wrapped` has `Unwrap() error`, `joined` is what `errors.Join` builds
(`Unwrap() []error`). Two errors are `==` when they are the same value. -/
inductive GoError where
  | atom (id : Nat)
  | wrapped (id : Nat) (inner : GoError)
  | joined (errs : List GoError)

mutual
/-- Decision procedure for equality of errors. -/
def GoError.decEq : (a b : GoError) → Decidable (a = b)
  | .atom a, .atom b =>
    if h : a = b then isTrue (by rw [h]) else isFalse (by intro e; cases e; exact h rfl)
  | .atom _, .wrapped _ _ => isFalse (by intro e; cases e)
  | .atom _, .joined _ => isFalse (by intro e; cases e)
  | .wrapped _ _, .atom _ => isFalse (by intro e; cases e)
  | .wrapped a x, .wrapped b y =>
    if h : a = b then
      match GoError.decEq x y with
      | isTrue hxy => isTrue (by rw [h, hxy])
      | isFalse hxy => isFalse (by intro e; cases e; exact hxy rfl)
    else isFalse (by intro e; cases e; exact h rfl)
  | .wrapped _ _, .joined _ => isFalse (by intro e; cases e)
  | .joined _, .atom _ => isFalse (by intro e; cases e)
  | .joined _, .wrapped _ _ => isFalse (by intro e; cases e)
  | .joined xs, .joined ys =>
    match GoError.decEqList xs ys with
    | isTrue h => isTrue (by rw [h])
    | isFalse h => isFalse (by intro e; cases e; exact h rfl)
/-- Decision procedure for equality of lists of errors. -/
def GoError.decEqList : (as bs : List GoError) → Decidable (as = bs)
  | [], [] => isTrue rfl
  | [], _ :: _ => isFalse (by intro e; cases e)
  | _ :: _, [] => isFalse (by intro e; cases e)
  | a :: as, b :: bs =>
    match GoError.decEq a b with
    | isTrue h =>
      match GoError.decEqList as bs with
      | isTrue hs => isTrue (by rw [h, hs])
      | isFalse hs => isFalse (by intro e; cases e; exact hs rfl)
    | isFalse h => isFalse (by intro e; cases e; exact h rfl)
end

instance : DecidableEq GoError := GoError.decEq

mutual
/-- The unexported `errors.is` with a comparable target: `err` matches when it
equals the target or when something it unwraps to matches. -/
def GoError.is (target : GoError) : GoError → Bool
  | .atom a => decide (GoError.atom a = target)
  | .wrapped a x => decide (GoError.wrapped a x = target) || GoError.is target x
  | .joined xs => decide (GoError.joined xs = target) || GoError.isAny target xs
/-- The loop of `errors.is` over the result of `Unwrap() []error`. -/
def GoError.isAny (target : GoError) : List GoError → Bool
  | [] => false
  | x :: xs => GoError.is target x || GoError.isAny target xs
end

/-- Go `errors.Is(err, target)` on possibly nil errors: when either is nil
the answer is whether both are. -/
def errorsIs (err target : Option GoError) : Bool :=
  match err, target with
  | some e, some t => GoError.is t e
  | none, none => true
  | _, _ => false

/-- Go `errors.Join(errs...)`: nil values are discarded; nil when nothing is
left, otherwise one joined error holding the rest in order. -/
def errorsJoin (errs : List (Option GoError)) : Option GoError :=
  let es := errs.filterMap id
  if es.isEmpty then none else some (GoError.joined es)

/-- A `slog.Value` that is not a group: its kind and payload. `other` stands
for the remaining kinds (float, duration, time, any, log valuer) by their text. -/
inductive Scalar where
  | string (s : String)
  | int64 (n : Int)
  | uint64 (n : Nat)
  | bool (b : Bool)
  | other (text : String)
  deriving DecidableEq, Repr

mutual
/-- A `slog.Value`: a scalar or a group of attributes. -/
inductive Value where
  | scalar (s : Scalar)
  | group (attrs : List Attr)
/-- A `slog.Attr`: a key and a value. -/
inductive Attr where
  | mk (Key : String) (Value : Value)
end

/-- The key of an attribute. -/
def Attr.Key : Attr → String
  | .mk k _ => k

/-- The value of an attribute. -/
def Attr.Value : Attr → Value
  | .mk _ v => v

/-- A `slog.Record`: time, message, level, program counter and the sequence of
its attributes (front array and back slice taken together). -/
structure Record where
  Time : Nat
  Message : String
  Level : Level
  PC : Nat
  attrs : List Attr

/-- The unexported `slog.Value.isEmptyGroup`: a group holding no attribute. -/
def Value.isEmptyGroup : Value → Bool
  | .scalar _ => false
  | .group g => g.isEmpty

/-- Go `slog.GroupValue(as...)`: the group of the attributes, without those that
are empty groups. -/
def GroupValue (as : List Attr) : Value :=
  Value.group (as.filter fun a => !a.Value.isEmptyGroup)

/-- Go `slog.NewRecord(t, level, msg, pc)`: a record with no attributes. -/
def NewRecord (t : Nat) (level : Level) (msg : String) (pc : Nat) : Record :=
  { Time := t, Message := msg, Level := level, PC := pc, attrs := [] }

/-- Go `slog.Record.AddAttrs(attrs...)`: appends the attributes to the record,
omitting empty groups. -/
def Record.AddAttrs (r : Record) (attrs : List Attr) : Record :=
  { r with attrs := r.attrs ++ attrs.filter fun a => !a.Value.isEmptyGroup }

/-! ## `sink.go`: the `Sink` interface -/

/-- Identity of a sink that is not nil. -/
abbrev SinkRef := Nat

/-- A value of interface type `Sink`; `none` is nil. -/
abbrev Sink := Option SinkRef

/-- Behaviour of the sinks behind the `Sink` values, over a state `σ` that
their `Handle` methods may change. `enabled` is a query. -/
structure SinkEnv (σ : Type) where
  enabled : SinkRef → Context → Level → Bool
  handle : SinkRef → Context → Record → σ → Option GoError × σ

/-- One invocation of `Handle` on a sink. -/
structure Call where
  sink : SinkRef
  ctx : Context
  record : Record

/-- State of the sinks together with the log of the `Handle` invocations made
so far, oldest first. -/
structure World (σ : Type) where
  state : σ
  calls : List Call

/-- The call `s.Enabled(ctx, level)` on an interface value; panics on nil. -/
def Sink.Enabled {σ : Type} (env : SinkEnv σ) (s : Sink) (ctx : Context) (level : Level) :
    Option Bool :=
  match s with
  | none => none
  | some r => some (env.enabled r ctx level)

/-- The call `s.Handle(ctx, record)` on an interface value; panics on nil. The
invocation is appended to the log. -/
def Sink.Handle {σ : Type} (env : SinkEnv σ) (s : Sink) (ctx : Context) (record : Record)
    (w : World σ) : Option (Option GoError × World σ) :=
  match s with
  | none => none
  | some r =>
    let res := env.handle r ctx record w.state
    some (res.1, { state := res.2, calls := w.calls ++ [Call.mk r ctx record] })

/-! ## Slices of sinks over a heap of backing arrays -/

/-- The backing arrays allocated so far; an array is named by its position. -/
structure Heap where
  arrays : List (List Sink)

/-- A slice header of type `[]Sink` that starts at the beginning of its backing
array: the array and the length. Its capacity is the length of the array. -/
structure Slice where
  arr : Nat
  len : Nat
  deriving DecidableEq

/-- The backing array at an address. -/
def Heap.load (h : Heap) (a : Nat) : List Sink :=
  h.arrays.getD a []

/-- Writes one slot of a backing array in place. -/
def Heap.store (h : Heap) (a i : Nat) (v : Sink) : Heap :=
  { arrays := h.arrays.set a ((h.load a).set i v) }

/-- Allocates a new backing array with the given content. -/
def Heap.alloc (h : Heap) (xs : List Sink) : Heap × Nat :=
  ({ arrays := h.arrays ++ [xs] }, h.arrays.length)

/-- Go `cap(s)`. -/
def Slice.cap (h : Heap) (s : Slice) : Nat :=
  (h.load s.arr).length

/-- The elements a reader of the slice sees: the first `len` slots of the
backing array as it is now. -/
def Slice.elems (h : Heap) (s : Slice) : List Sink :=
  (h.load s.arr).take s.len

/-- Go `s[i]`. -/
def Slice.index (h : Heap) (s : Slice) (i : Nat) : Sink :=
  (h.load s.arr).getD i none

/-- Go `append(s, v)`. With spare capacity the value is written in place into
the backing array; otherwise a larger array is allocated and the elements are
copied into it. `grow` gives the capacity the runtime picks from the old
capacity (never less than what is needed). -/
def goAppend (grow : Nat → Nat) (h : Heap) (s : Slice) (v : Sink) : Heap × Slice :=
  if s.len < s.cap h then
    (h.store s.arr s.len v, { s with len := s.len + 1 })
  else
    let newcap := max (s.len + 1) (grow (s.cap h))
    let r := h.alloc ((s.elems h ++ [v]) ++ List.replicate (newcap - (s.len + 1)) none)
    (r.1, { arr := r.2, len := s.len + 1 })

/-- Go `slices.Index(xs, v)`: the index of the first element equal to `v`;
`none` stands for -1. -/
def slicesIndex : List Sink → Sink → Option Nat
  | [], _ => none
  | x :: xs, v => if x = v then some 0 else (slicesIndex xs v).map (· + 1)

/-! ## `fanout.go` -/

/-- The `FanOutSink` struct: `sinks` is the slice header held by the
`atomic.Value`. The write lock has no content in a sequential run. -/
structure FanOutSink where
  sinks : Slice
  deriving DecidableEq

/-- Go `NewFanOutSink(sinks...)`: a fresh array of the same length, the
arguments copied into it. -/
def NewFanOutSink (h : Heap) (sinks : List Sink) : Heap × FanOutSink :=
  let r := h.alloc sinks
  (r.1, { sinks := { arr := r.2, len := sinks.length } })

/-- Method `getSinks`: loads the published slice header. -/
def FanOutSink.getSinks (f : FanOutSink) : Slice :=
  f.sinks

/-- Method `AddSink`. -/
def FanOutSink.AddSink (grow : Nat → Nat) (h : Heap) (f : FanOutSink) (s : Sink) :
    Heap × FanOutSink :=
  let sinks := f.getSinks
  let r := goAppend grow h sinks s
  (r.1, { sinks := r.2 })

/-- Method `RemoveSink`: the result, the heap and the fan-out afterwards. -/
def FanOutSink.RemoveSink (h : Heap) (f : FanOutSink) (s : Sink) : Bool × Heap × FanOutSink :=
  let sinks := f.getSinks
  match slicesIndex (sinks.elems h) s with
  | none => (false, h, f)
  | some i =>
    let n := sinks.len
    let h1 := if i ≠ n - 1 then h.store sinks.arr i (sinks.index h (n - 1)) else h
    let h2 := h1.store sinks.arr (n - 1) none
    (true, h2, { sinks := { sinks with len := n - 1 } })

/-- The loop of `Enabled` over the loaded slice. -/
def enabledLoop {σ : Type} (env : SinkEnv σ) (ctx : Context) (level : Level) :
    List Sink → Option Bool
  | [] => some false
  | s :: rest =>
    match s.Enabled env ctx level with
    | none => none
    | some true => some true
    | some false => enabledLoop env ctx level rest

/-- Method `Enabled` of the fan-out. -/
def FanOutSink.Enabled {σ : Type} (env : SinkEnv σ) (h : Heap) (f : FanOutSink)
    (ctx : Context) (level : Level) : Option Bool :=
  enabledLoop env ctx level (f.getSinks.elems h)

/-- The loop of `Handle` over the indexed elements of the loaded slice,
filling the `errs` slice. -/
def handleLoop {σ : Type} (env : SinkEnv σ) (ctx : Context) (record : Record) :
    List (Nat × Sink) → List (Option GoError) → World σ →
      Option (List (Option GoError) × World σ)
  | [], errs, w => some (errs, w)
  | (i, s) :: rest, errs, w =>
    match s.Enabled env ctx record.Level with
    | none => none
    | some false => handleLoop env ctx record rest errs w
    | some true =>
      match s.Handle env ctx record w with
      | none => none
      | some (e, w1) => handleLoop env ctx record rest (errs.set i e) w1

/-- Method `Handle` of the fan-out: the returned error and the world after. -/
def FanOutSink.Handle {σ : Type} (env : SinkEnv σ) (h : Heap) (f : FanOutSink)
    (ctx : Context) (record : Record) (w : World σ) : Option (Option GoError × World σ) :=
  let sinks := f.getSinks.elems h
  let errs : List (Option GoError) := List.replicate sinks.length none
  match handleLoop env ctx record sinks.enum errs w with
  | none => none
  | some (errs1, w1) => some (errorsJoin errs1, w1)

/-- A fan-out is well formed in a heap when its slice header names an allocated
array and its length is within the capacity. -/
def FanOutSink.WF (h : Heap) (f : FanOutSink) : Prop :=
  f.sinks.arr < h.arrays.length ∧ f.sinks.len ≤ f.sinks.cap h

instance (h : Heap) (f : FanOutSink) : Decidable (f.WF h) := by
  unfold FanOutSink.WF; infer_instance

/-! ## `sink.go`: `WriterSink` -/

/-- State of the output stream together with the log of the buffers passed to
`Write`, oldest first. -/
structure Output (ω : Type) where
  state : ω
  writes : List Buf

/-- The `WriterSink` struct. `Writer` is the `Write` method of the stream (it
returns the error and the new state of the stream; the byte count is dropped
by the caller), `Level` the level of the leveler, `Format` the `Append` method
of the formatter. The lock has no content in a sequential run. -/
structure WriterSink (ω : Type) where
  Writer : Buf → ω → Option GoError × ω
  Level : Level
  Format : Buf → Context → Record → Buf
  buffer : Buf

/-- Method `Enabled` of the writer sink. -/
def WriterSink.Enabled {ω : Type} (s : WriterSink ω) (_ctx : Context) (l : Yall.Level) : Bool :=
  decide (l ≥ s.Level)

/-- Method `Handle` of the writer sink: the returned error, the sink with its
buffer afterwards, and the output afterwards. -/
def WriterSink.Handle {ω : Type} (s : WriterSink ω) (c : Context) (r : Record)
    (out : Output ω) : Option GoError × WriterSink ω × Output ω :=
  let buffer := s.Format (s.buffer.take 0) c r
  let buffer := buffer ++ [Char.ofNat 10]
  let res := s.Writer buffer out.state
  (res.1, { s with buffer := buffer }, { state := res.2, writes := out.writes ++ [buffer] })

/-- Successive calls of `Handle` on one writer sink, one per event: the
returned errors in order, the sink and the output afterwards. -/
def WriterSink.handleAll {ω : Type} :
    WriterSink ω → List (Context × Record) → Output ω →
      List (Option GoError) × WriterSink ω × Output ω
  | s, [], out => ([], s, out)
  | s, (c, r) :: rest, out =>
    let r1 := s.Handle c r out
    let r2 := WriterSink.handleAll r1.2.1 rest r1.2.2
    (r1.1 :: r2.1, r2.2)

/-! ## `handler.go` -/

/-- The three handler types of the chain; `next` is the handler a node wraps. -/
inductive Handler where
  | sinkHandler (sink : Sink)
  | attrsHandler (next : Handler) (attrs : List Attr)
  | groupHandler (next : Handler) (name : String)

/-- Go `NewHandler(sink)`. -/
def NewHandler (sink : Sink) : Handler :=
  Handler.sinkHandler sink

mutual
/-- Function `countEmptyGroups`. -/
def countEmptyGroups : List Attr → Nat
  | [] => 0
  | a :: rest => (if isEmptyGroup a then 1 else 0) + countEmptyGroups rest
/-- Function `isEmptyGroup`. -/
def isEmptyGroup : Attr → Bool
  | .mk _ (.scalar _) => false
  | .mk _ (.group g) => g.length == countEmptyGroups g
end

/-- Function `withAttrs`. -/
def withAttrs (next : Handler) (attrs : List Attr) : Handler :=
  let empty := countEmptyGroups attrs
  if empty = attrs.length then
    next
  else
    let attrs := if empty ≠ 0 then attrs.filter (fun a => !isEmptyGroup a) else attrs
    Handler.attrsHandler next attrs

/-- Function `withGroup`. -/
def withGroup (next : Handler) (name : String) : Handler :=
  if name = "" then next else Handler.groupHandler next name

/-- Method `WithAttrs` of the three handler types. -/
def Handler.WithAttrs (h : Handler) (attrs : List Attr) : Handler :=
  withAttrs h attrs

/-- Method `WithGroup` of the three handler types. -/
def Handler.WithGroup (h : Handler) (name : String) : Handler :=
  withGroup h name

/-- Method `Enabled` of the three handler types. -/
def Handler.Enabled {σ : Type} (env : SinkEnv σ) : Handler → Context → Level → Option Bool
  | .sinkHandler sink, ctx, level => sink.Enabled env ctx level
  | .attrsHandler next _, ctx, level => next.Enabled env ctx level
  | .groupHandler next _, ctx, level => next.Enabled env ctx level

/-- Method `Handle` of the three handler types. -/
def Handler.Handle {σ : Type} (env : SinkEnv σ) :
    Handler → Context → Record → World σ → Option (Option GoError × World σ)
  | .sinkHandler sink, ctx, record, w => sink.Handle env ctx record w
  | .attrsHandler next attrs, ctx, record, w =>
    next.Handle env ctx (record.AddAttrs attrs) w
  | .groupHandler next name, ctx, record, w =>
    let attrs := record.attrs
    let r := NewRecord record.Time record.Level record.Message record.PC
    let r := r.AddAttrs [Attr.mk name (GroupValue attrs)]
    next.Handle env ctx r w

/-- Number of nodes of a handler chain above its sink handler. -/
def Handler.depth : Handler → Nat
  | .sinkHandler _ => 0
  | .attrsHandler next _ => next.depth + 1
  | .groupHandler next _ => next.depth + 1

mutual
/-- Decision procedure for equality of values. -/
def Value.decEq : (a b : Value) → Decidable (a = b)
  | .scalar x, .scalar y =>
    if h : x = y then isTrue (by rw [h]) else isFalse (by intro e; cases e; exact h rfl)
  | .scalar _, .group _ => isFalse (by intro e; cases e)
  | .group _, .scalar _ => isFalse (by intro e; cases e)
  | .group xs, .group ys =>
    match Attr.decEqList xs ys with
    | isTrue h => isTrue (by rw [h])
    | isFalse h => isFalse (by intro e; cases e; exact h rfl)
/-- Decision procedure for equality of attributes. -/
def Attr.decEq : (a b : Attr) → Decidable (a = b)
  | .mk k v, .mk l w =>
    if h : k = l then
      match Value.decEq v w with
      | isTrue hv => isTrue (by rw [h, hv])
      | isFalse hv => isFalse (by intro e; cases e; exact hv rfl)
    else isFalse (by intro e; cases e; exact h rfl)
/-- Decision procedure for equality of lists of attributes. -/
def Attr.decEqList : (as bs : List Attr) → Decidable (as = bs)
  | [], [] => isTrue rfl
  | [], _ :: _ => isFalse (by intro e; cases e)
  | _ :: _, [] => isFalse (by intro e; cases e)
  | a :: as, b :: bs =>
    match Attr.decEq a b with
    | isTrue h =>
      match Attr.decEqList as bs with
      | isTrue hs => isTrue (by rw [h, hs])
      | isFalse hs => isFalse (by intro e; cases e; exact hs rfl)
    | isFalse h => isFalse (by intro e; cases e; exact h rfl)
end

instance : DecidableEq Value := Value.decEq

instance : DecidableEq Attr := Attr.decEq

deriving instance DecidableEq for Record

deriving instance DecidableEq for Call

deriving instance DecidableEq for World

/-! ## Host functions used by `formatter.go` (`strconv`, `unicode`, `fmt`, `time`, `runtime`) -/

/-- The parts of the Go runtime and standard library that are taken as given:
the Unicode tables behind `strconv.IsPrint` above Latin-1, the text
`time.Time.AppendFormat` produces for a time and a layout, the file and line
`runtime.FuncForPC` resolves a program counter to (if any), `path.Base`, and
what `fmt.Appendf` appends from a directive other than `%s` and `%%` on (given
the rest of the format after the percent sign and the operands not yet used). -/
structure Host where
  printTable : Char → Bool
  timeFormat : Nat → String → String
  funcFileLine : Nat → Option (String × Nat)
  pathBase : String → String
  directive : List Char → List Buf → Buf

/-- Go `unicode.IsSpace`: the white space characters of Latin-1 and those of
the Unicode White_Space property above it. -/
def unicodeIsSpace (c : Char) : Bool :=
  let n := c.toNat
  if n ≤ 0xFF then
    n = 0x09 ∨ n = 0x0A ∨ n = 0x0B ∨ n = 0x0C ∨ n = 0x0D ∨ n = 0x20 ∨ n = 0x85 ∨ n = 0xA0
  else
    n = 0x1680 ∨ (0x2000 ≤ n ∧ n ≤ 0x200A) ∨ n = 0x2028 ∨ n = 0x2029 ∨ n = 0x202F ∨
      n = 0x205F ∨ n = 0x3000

/-- Go `strconv.IsPrint`: decided directly on Latin-1, by the tables above it. -/
def strconvIsPrint (host : Host) (c : Char) : Bool :=
  let n := c.toNat
  if n ≤ 0xFF then
    if 0x20 ≤ n ∧ n ≤ 0x7E then true
    else if 0xA1 ≤ n ∧ n ≤ 0xFF then n ≠ 0xAD
    else false
  else host.printTable c

/-- The digit of `lowerhex` for a value below 16. -/
def lowerhex (n : Nat) : Char :=
  "0123456789abcdef".toList.getD n (Char.ofNat 48)

/-- The hexadecimal digits of `r` that `appendEscapedRune` writes after the
escape letter: for a shift `s` of `4 * (k - 1)` down to 0, the digit
`r >> s & 0xF`. -/
def hexDigits (r : Nat) : Nat → List Char
  | 0 => []
  | k + 1 => lowerhex (r / 16 ^ k % 16) :: hexDigits r k

/-- The text `strconv.appendEscapedRune` appends for one character, for the
double quote and with `ASCIIonly` and `graphicOnly` false: the quote and the
backslash are backslashed, a printable character stands for itself, the others
are written as an escape. -/
def escapedRune (host : Host) (r : Char) : Buf :=
  let n := r.toNat
  if n = 0x22 ∨ n = 0x5C then [Char.ofNat 0x5C, r]
  else if strconvIsPrint host r then [r]
  else if n = 0x07 then [Char.ofNat 0x5C, Char.ofNat 0x61]
  else if n = 0x08 then [Char.ofNat 0x5C, Char.ofNat 0x62]
  else if n = 0x0C then [Char.ofNat 0x5C, Char.ofNat 0x66]
  else if n = 0x0A then [Char.ofNat 0x5C, Char.ofNat 0x6E]
  else if n = 0x0D then [Char.ofNat 0x5C, Char.ofNat 0x72]
  else if n = 0x09 then [Char.ofNat 0x5C, Char.ofNat 0x74]
  else if n = 0x0B then [Char.ofNat 0x5C, Char.ofNat 0x76]
  else if n < 0x20 ∨ n = 0x7F then [Char.ofNat 0x5C, Char.ofNat 0x78] ++ hexDigits n 2
  else if n < 0x10000 then [Char.ofNat 0x5C, Char.ofNat 0x75] ++ hexDigits n 4
  else [Char.ofNat 0x5C, Char.ofNat 0x55] ++ hexDigits n 8

/-- The unexported `strconv.appendEscapedRune`. -/
def appendEscapedRune (host : Host) (buf : Buf) (r : Char) : Buf :=
  buf ++ escapedRune host r

/-- Go `strconv.AppendQuote(b, s)`: a double quote, the characters of `s`
escaped one by one, a double quote. -/
def strconvAppendQuote (host : Host) (b : Buf) (s : String) : Buf :=
  s.toList.foldl (appendEscapedRune host) (b ++ [Char.ofNat 0x22]) ++ [Char.ofNat 0x22]

/-- Go `fmt.Append(b, s)` for one string operand, and for several string
operands in a row (no space is put between operands that are strings). -/
def fmtAppend (b : Buf) (operands : List String) : Buf :=
  operands.foldl (fun acc s => acc ++ s.toList) b

/-- The UTF-8 bytes of a buffer, as numbers. -/
def utf8Bytes (b : Buf) : List Nat :=
  b.flatMap fun c => (String.utf8EncodeChar c).map fun x => x.toNat

/-- What `fmt` prints for a `[]byte` operand under `%v`: the bytes in decimal
between brackets, separated by spaces. -/
def fmtBytesV (b : Buf) : Buf :=
  [Char.ofNat 0x5B] ++ (" ".intercalate ((utf8Bytes b).map toString)).toList ++ [Char.ofNat 0x5D]

/-- The end of `doPrintf`: operands left over are reported as
`%!(EXTRA []uint8=[..], ..)`. -/
def fmtExtra (args : List Buf) : Buf :=
  match args with
  | [] => []
  | _ :: _ =>
    "%!(EXTRA ".toList ++
      (", ".intercalate (args.map fun a => "[]uint8=" ++ String.mk (fmtBytesV a))).toList ++
      [Char.ofNat 0x29]

/-- The loop of `fmt.Appendf` (`doPrintf`) over the format, with `[]byte`
operands: text is copied, `%s` prints the next operand as it is or
`%!s(MISSING)` when none is left, `%%` prints a percent sign, a percent sign at
the very end prints `%!(NOVERB)`; any other directive is left to the host. -/
def doPrintf (host : Host) : List Char → List Buf → Buf
  | [], args => fmtExtra args
  | c :: rest, args =>
    if c = Char.ofNat 0x25 then
      match rest, args with
      | [], _ => "%!(NOVERB)".toList ++ fmtExtra args
      | d :: rest1, a :: args1 =>
        if d = Char.ofNat 0x73 then a ++ doPrintf host rest1 args1
        else if d = Char.ofNat 0x25 then Char.ofNat 0x25 :: doPrintf host rest1 (a :: args1)
        else host.directive (d :: rest1) (a :: args1)
      | d :: rest1, [] =>
        if d = Char.ofNat 0x73 then "%!s(MISSING)".toList ++ doPrintf host rest1 []
        else if d = Char.ofNat 0x25 then Char.ofNat 0x25 :: doPrintf host rest1 []
        else host.directive (d :: rest1) []
    else c :: doPrintf host rest args

/-- Go `fmt.Appendf(b, format, args...)` with `[]byte` operands. -/
def fmtAppendf (host : Host) (b : Buf) (format : String) (args : List Buf) : Buf :=
  b ++ doPrintf host format.toList args

/-- Go `slog.Value.String` for a value that is not a group. -/
def Scalar.String : Scalar → String
  | .string s => s
  | .int64 n => toString n
  | .uint64 n => toString n
  | .bool b => if b then "true" else "false"
  | .other text => text

/-- Go `slog.Level.String`: the name of the nearest named level at or below,
with the signed offset from it when there is one. -/
def levelString (l : Level) : String :=
  let str := fun (base : String) (val : Int) =>
    if val = 0 then base
    else base ++ (if val < 0 then "-" else "+") ++ toString val.natAbs
  if l < 0 then str "DEBUG" (l - (-4))
  else if l < 4 then str "INFO" (l - 0)
  else if l < 8 then str "WARN" (l - 4)
  else str "ERROR" (l - 8)

/-! ## `formatter.go` -/

/-- The type `QuoteType`, an integer. -/
abbrev QuoteType := Int

/-- Do not add quotes. -/
def QuoteNever : QuoteType := 0

/-- Always quote using `strconv.Quote`. -/
def QuoteAlways : QuoteType := 1

/-- Only quote empty strings and strings containing spaces and/or equal signs. -/
def QuoteSmart : QuoteType := 2

/-- Function `needsQuoting`. -/
def needsQuoting (s : String) (q : QuoteType) : Bool :=
  if q = QuoteNever then false
  else if q = QuoteAlways then true
  else if s = "" then true
  else s.toList.any fun r => r = Char.ofNat 0x3D || unicodeIsSpace r

/-- Function `quote`. -/
def quote (host : Host) (b : Buf) (s : String) (q : QuoteType) : Buf :=
  if needsQuoting s q then strconvAppendQuote host b s else fmtAppend b [s]

/-- The implementations of the `Formatter` interface: the six formatter types
of the package and, as `custom`, any other implementation, given by its
`Append` method. -/
inductive Formatter where
  | Layout (Format : String) (Args : List Formatter)
  | Time (Layout : String)
  | Level
  | Source (Short : Bool)
  | Message (Quote : QuoteType)
  | TextAttrs (Quote : QuoteType)
  | Conditional (Format : String) (Inner : Formatter)
  | custom (Append : Buf → Context → Record → Buf)

mutual
/-- Method `TextAttrs.formatAttr`. -/
def formatAttr (host : Host) (q : QuoteType) (b : Buf) (pfx : String) : Attr → Buf
  | .mk key (.group g) => formatAttrs host q b (pfx ++ key ++ ".") g
  | .mk key (.scalar v) => quote host (fmtAppend b [" ", pfx, key, "="]) v.String q
/-- The loop of `formatAttr` over the attributes of a group, and of
`TextAttrs.Append` over those of the record. -/
def formatAttrs (host : Host) (q : QuoteType) (b : Buf) (pfx : String) : List Attr → Buf
  | [] => b
  | aa :: rest => formatAttrs host q (formatAttr host q b pfx aa) pfx rest
end

mutual
/-- Method `Append` of the formatter types. -/
def Formatter.Append (host : Host) : Formatter → Buf → Context → Record → Buf
  | .Layout format args, b, c, r =>
    fmtAppendf host b format (Formatter.appendArgs host args [] c r)
  | .Time layout, b, _, r =>
    if layout = "" then b ++ (host.timeFormat r.Time "2006-01-02 15:04:05").toList
    else b ++ (host.timeFormat r.Time layout).toList
  | .Level, b, _, r => fmtAppend b [levelString r.Level]
  | .Source short, b, _, r =>
    match host.funcFileLine r.PC with
    | none => b
    | some (f, l) =>
      let f := if short then host.pathBase f else f
      fmtAppend b [f, ":", toString l]
  | .Message q, b, _, r => quote host b r.Message q
  | .TextAttrs q, b, _, r => formatAttrs host q b "" r.attrs
  | .Conditional format inner, b, c, r =>
    let tmp := inner.Append host [] c r
    if tmp.length ≠ 0 then fmtAppendf host b format [tmp] else b
  | .custom f, b, c, r => f b c r
/-- The loop of `Layout.Append` over `Args`: each formatter appends to the
shared `tmp`, and the operand kept for it is `tmp[start:]`, the part of the
buffer it returned past the length `tmp` had before. Returns the operands. -/
def Formatter.appendArgs (host : Host) : List Formatter → Buf → Context → Record → List Buf
  | [], _, _, _ => []
  | f :: rest, tmp, c, r =>
    let start := tmp.length
    let tmp1 := f.Append host tmp c r
    tmp1.drop start :: Formatter.appendArgs host rest tmp1 c r
end

/-- The variable `defaultFormat`. -/
def defaultFormat : Formatter :=
  Formatter.Layout "%s %s %s%s"
    [Formatter.Time "", Formatter.Level, Formatter.Message QuoteNever,
      Formatter.TextAttrs QuoteSmart]

/-- Function `DefaultFormat`. -/
def DefaultFormat : Formatter :=
  defaultFormat

/-! ## Reference notions used to state the properties -/

/-- The results of calling `Handle` on each of the given sinks once, in order,
each call starting from the state the previous one left: the returned errors
and the final state. -/
def memberResults {σ : Type} (env : SinkEnv σ) (ctx : Context) (record : Record) :
    List SinkRef → σ → List (Option GoError) × σ
  | [], st => ([], st)
  | s :: rest, st =>
    let r1 := env.handle s ctx record st
    let r2 := memberResults env ctx record rest r1.2
    (r1.1 :: r2.1, r2.2)

/-- Successive calls of `RemoveSink`, one per element of the list: the results
in order, the heap and the fan-out afterwards. -/
def removeEach : Heap → FanOutSink → List Sink → List Bool × Heap × FanOutSink
  | h, f, [] => ([], h, f)
  | h, f, s :: rest =>
    let r1 := f.RemoveSink h s
    let r2 := removeEach r1.2.1 r1.2.2 rest
    (r1.1 :: r2.1, r2.2)

mutual
/-- An attribute that is a group all of whose members are, recursively, such
groups (a group with no member among them). -/
def recursivelyEmpty : Attr → Bool
  | .mk _ (.scalar _) => false
  | .mk _ (.group g) => allRecursivelyEmpty g
/-- Every attribute of the list is a recursively empty group. -/
def allRecursivelyEmpty : List Attr → Bool
  | [] => true
  | a :: rest => recursivelyEmpty a && allRecursivelyEmpty rest
end

/-- The results of writing the given buffers to the stream one after the other:
the returned errors and the final state of the stream. -/
def writeResults {ω : Type} (writer : Buf → ω → Option GoError × ω) :
    List Buf → ω → List (Option GoError) × ω
  | [], st => ([], st)
  | b :: rest, st =>
    let r1 := writer b st
    let r2 := writeResults writer rest r1.2
    (r1.1 :: r2.1, r2.2)

/-- One derivation step on a handler: a `WithAttrs` or a `WithGroup` call. -/
inductive Derivation where
  | attrs (list : List Attr)
  | group (name : String)

/-- The handler obtained by the given derivation steps, first step first. -/
def Handler.derive (h : Handler) : List Derivation → Handler
  | [] => h
  | .attrs list :: rest => (h.WithAttrs list).derive rest
  | .group name :: rest => (h.WithGroup name).derive rest

/-- The attributes standing for a list of keys and scalar values. -/
def scalarAttrs (kvs : List (String × Scalar)) : List Attr :=
  kvs.map fun kv => Attr.mk kv.1 (Value.scalar kv.2)

mutual
/-- The scalar leaves of an attribute in depth-first insertion order, each with
the keys of its enclosing groups (outermost first), its own key and its value. -/
def scalarLeaves (path : List String) : Attr → List (List String × String × Scalar)
  | .mk key (.scalar v) => [(path, key, v)]
  | .mk key (.group g) => scalarLeavesList (path ++ [key]) g
/-- The scalar leaves of a list of attributes, in order. -/
def scalarLeavesList (path : List String) : List Attr → List (List String × String × Scalar)
  | [] => []
  | a :: rest => scalarLeaves path a ++ scalarLeavesList path rest
end

/-- The dotted path of a list of group keys: each key followed by a dot. -/
def dottedPath (path : List String) : String :=
  path.foldl (fun acc k => acc ++ k ++ ".") ""

/-- The text of one leaf: a space, the dotted path, the key, an equal sign and
the value quoted per the policy. -/
def leafText (host : Host) (q : QuoteType) (leaf : List String × String × Scalar) : Buf :=
  (" " ++ dottedPath leaf.1 ++ leaf.2.1 ++ "=").toList ++ quote host [] leaf.2.2.String q

/-- The text of a template: `lit0` followed by, for each text of `segs`, a
`%s` placeholder and that text. It has as many placeholders as `segs` has
entries. -/
def templateText (lit0 : Buf) (segs : List Buf) : Buf :=
  lit0 ++ segs.flatMap fun l => [Char.ofNat 0x25, Char.ofNat 0x73] ++ l

/-- The template with its placeholders replaced, in order, by the pieces. -/
def templateFilled (lit0 : Buf) (pieces segs : List Buf) : Buf :=
  lit0 ++ (List.zipWith (fun p l => p ++ l) pieces segs).flatten

/-- A formatter keeps the contract of `Append` (it appends to the buffer it is
given): what it returns is that buffer followed by its rendering of the event,
which is what it returns for the empty buffer. -/
def Formatter.Appends (host : Host) (f : Formatter) : Prop :=
  ∀ b c r, f.Append host b c r = b ++ f.Append host [] c r

/-- A writer sink configured with the minimum level INFO and `DefaultFormat()`,
over any stream and with any content of its buffer. -/
def infoWriterSink {ω : Type} (host : Host) (writer : Buf → ω → Option GoError × ω)
    (buffer : Buf) : WriterSink ω :=
  { Writer := writer, Level := LevelInfo, Format := DefaultFormat.Append host, buffer := buffer }

/-! ## Concrete inputs used to instantiate the theorems -/

/-- Sinks for the examples: sink `r` is enabled at the levels from `r` on; its
`Handle` counts the calls and sinks with an odd identity fail with their own
error. -/
def exampleEnv : SinkEnv Nat where
  enabled := fun r _ level => decide ((r : Int) ≤ level)
  handle := fun r _ _ st => (if r % 2 = 1 then some (GoError.atom r) else none, st + 1)

/-- The empty heap. -/
def emptyHeap : Heap :=
  { arrays := [] }

/-- An event of level 1 with one scalar attribute. -/
def exampleRecord : Record :=
  { Time := 7, Message := "msg", Level := 1, PC := 0,
    attrs := [Attr.mk "n" (Value.scalar (Scalar.string "v"))] }

/-- The world before any call. -/
def exampleWorld : World Nat :=
  { state := 0, calls := [] }

/-- The fan-out built by `NewFanOutSink(s0, s1, s2)` in the empty heap. -/
def exampleFanOut : Heap × FanOutSink :=
  NewFanOutSink emptyHeap [some 0, some 1, some 2]

/-- The fan-out built by `NewFanOutSink(s0, s0)`: one sink, added twice. -/
def duplicateFanOut : Heap × FanOutSink :=
  NewFanOutSink emptyHeap [some 0, some 0]

/-- A chain `NewHandler(s1).WithGroup("g")`. -/
def exampleHandler : Handler :=
  (NewHandler (some 1)).WithGroup "g"

/-- Attributes that are all recursively empty groups: `g{}` and `k{g{}}`. -/
def emptyGroupsList : List Attr :=
  [Attr.mk "g" (Value.group []), Attr.mk "k" (Value.group [Attr.mk "g" (Value.group [])])]

/-- The list `x=y, g{}, v=w` of the test `WithAttrsEmptyGroup`. -/
def mixedList : List Attr :=
  [Attr.mk "x" (Value.scalar (Scalar.string "y")), Attr.mk "g" (Value.group []),
    Attr.mk "v" (Value.scalar (Scalar.string "w"))]

/-- A host for the examples: every character above Latin-1 is printable, a
time is rendered as `T` and its number, no program counter resolves. -/
def exampleHost : Host where
  printTable := fun _ => true
  timeFormat := fun t _ => "T" ++ toString t
  funcFileLine := fun _ => none
  pathBase := fun s => s
  directive := fun _ _ => []

/-- An event of level INFO with message `Just a message` and no attributes. -/
def bareRecord : Record :=
  { Time := 7, Message := "Just a message", Level := 0, PC := 0, attrs := [] }

/-- The list `x=y` of one scalar attribute. -/
def oneScalar : List (String × Scalar) :=
  [("x", Scalar.string "y")]

/-- The formatter `testFormatter{str}` of the tests: it appends `str`. -/
def testFormatter (str : String) : Formatter :=
  Formatter.custom fun b _ _ => fmtAppend b [str]

/-- The list `z=w` of one scalar attribute. -/
def otherScalar : List (String × Scalar) :=
  [("z", Scalar.string "w")]

/-! ## Lemmas on the fan-out loops -/

theorem enabledLoop_members {σ : Type} (env : SinkEnv σ) (ctx : Context) (level : Level)
    (S : List SinkRef) :
    enabledLoop env ctx level (S.map some) = some (S.any fun s => env.enabled s ctx level) := by
  induction S with
  | nil => rfl
  | cons s rest ih =>
    simp only [List.map_cons, enabledLoop, Sink.Enabled, List.any_cons]
    cases hs : env.enabled s ctx level
    · simpa using ih
    · simp

theorem errorsJoin_congr {xs ys : List (Option GoError)}
    (hxy : xs.filterMap id = ys.filterMap id) : errorsJoin xs = errorsJoin ys := by
  simp only [errorsJoin, hxy]

theorem set_length_append {α : Type} (done : List α) (x e : α) (t : List α) :
    (done ++ x :: t).set done.length e = done ++ e :: t := by
  induction done with
  | nil => rfl
  | cons d ds ih => simp [List.set, ih]

theorem handleLoop_members {σ : Type} (env : SinkEnv σ) (ctx : Context) (record : Record)
    (S : List SinkRef) (done : List (Option GoError)) (w : World σ) :
    ∃ errs : List (Option GoError),
      handleLoop env ctx record ((S.map some).enumFrom done.length)
          (done ++ List.replicate S.length none) w
        = some (errs,
            { state := (memberResults env ctx record
                (S.filter fun s => env.enabled s ctx record.Level) w.state).2,
              calls := w.calls ++
                (S.filter fun s => env.enabled s ctx record.Level).map
                  fun s => Call.mk s ctx record }) ∧
      errs.filterMap id = done.filterMap id ++
        (memberResults env ctx record
          (S.filter fun s => env.enabled s ctx record.Level) w.state).1.filterMap id := by
  induction S generalizing done w with
  | nil =>
    refine ⟨done, ?_, ?_⟩
    · simp [handleLoop, memberResults]
    · simp [memberResults]
  | cons s rest ih =>
    simp only [List.map_cons, List.enumFrom_cons, handleLoop, Sink.Enabled, List.length_cons,
      List.replicate_succ]
    cases hs : env.enabled s ctx record.Level
    · have h1 := ih (done ++ [none]) w
      simp only [List.length_append, List.length_singleton, List.append_assoc,
        List.singleton_append] at h1
      obtain ⟨errs, he, hf⟩ := h1
      refine ⟨errs, ?_, ?_⟩
      · simpa [hs] using he
      · simpa [hs] using hf
    · simp only [Sink.Handle, set_length_append]
      have h1 := ih (done ++ [(env.handle s ctx record w.state).1])
        { state := (env.handle s ctx record w.state).2,
          calls := w.calls ++ [Call.mk s ctx record] }
      simp only [List.length_append, List.length_singleton, List.append_assoc,
        List.singleton_append] at h1
      obtain ⟨errs, he, hf⟩ := h1
      refine ⟨errs, ?_, ?_⟩
      · simpa [hs, memberResults] using he
      · rw [hf]
        simp only [List.filter_cons, hs, if_true, memberResults, List.filterMap_append]
        cases (env.handle s ctx record w.state).1 <;> simp

theorem fanOut_handle_members {σ : Type} (env : SinkEnv σ) (h : Heap) (f : FanOutSink)
    (S : List SinkRef) (hm : f.getSinks.elems h = S.map some)
    (ctx : Context) (record : Record) (w : World σ) :
    f.Handle env h ctx record w
      = some (errorsJoin (memberResults env ctx record
                (S.filter fun s => env.enabled s ctx record.Level) w.state).1,
          { state := (memberResults env ctx record
                (S.filter fun s => env.enabled s ctx record.Level) w.state).2,
            calls := w.calls ++
              (S.filter fun s => env.enabled s ctx record.Level).map
                fun s => Call.mk s ctx record }) := by
  obtain ⟨errs, he, hf⟩ := handleLoop_members env ctx record S [] w
  simp only [List.length_nil, List.nil_append, List.filterMap_nil] at he hf
  simp only [FanOutSink.Handle, hm, List.enum, List.length_map, he]
  rw [errorsJoin_congr hf]

theorem GoError.is_self (e : GoError) : GoError.is e e = true := by
  cases e <;> simp [GoError.is]

theorem GoError.isAny_iff (t : GoError) (xs : List GoError) :
    GoError.isAny t xs = true ↔ ∃ x ∈ xs, GoError.is t x = true := by
  induction xs with
  | nil => simp [GoError.isAny]
  | cons x rest ih => simp [GoError.isAny, ih]

theorem errorsJoin_eq_none_iff (rs : List (Option GoError)) :
    errorsJoin rs = none ↔ ∀ r ∈ rs, r = none := by
  unfold errorsJoin
  induction rs with
  | nil => simp
  | cons r rest ih =>
    cases r with
    | none => simp
    | some e => simp

/-! ## The fan-out sink: `Enabled` and `Handle` -/

/-- C1: for a fan-out whose member list is `S`, `Enabled` at a level is the
logical OR of the members' `Enabled` at that level, and it is false when `S` is
empty. -/
theorem fanOut_enabled_is_or {σ : Type} (env : SinkEnv σ) (h : Heap) (f : FanOutSink)
    (S : List SinkRef) (hm : f.getSinks.elems h = S.map some)
    (ctx : Context) (level : Level) :
    f.Enabled env h ctx level = some (S.any fun s => env.enabled s ctx level) ∧
      (S = [] → f.Enabled env h ctx level = some false) := by
  have h1 : f.Enabled env h ctx level = some (S.any fun s => env.enabled s ctx level) := by
    simp only [FanOutSink.Enabled, hm, enabledLoop_members]
  refine ⟨h1, ?_⟩
  intro hS
  rw [h1, hS]
  rfl

theorem fanOut_enabled_is_or_witness :
    exampleFanOut.2.getSinks.elems exampleFanOut.1 = [0, 1, 2].map some ∧
      (exampleFanOut.2.Enabled exampleEnv exampleFanOut.1 0 1
          = some ([0, 1, 2].any fun s => exampleEnv.enabled s 0 1) ∧
        (([0, 1, 2] : List SinkRef) = [] →
          exampleFanOut.2.Enabled exampleEnv exampleFanOut.1 0 1 = some false)) :=
  ⟨by decide, fanOut_enabled_is_or exampleEnv exampleFanOut.1 exampleFanOut.2 [0, 1, 2]
    (by decide) 0 1⟩

/-- C2: for a fan-out whose member list is `S`, `Handle` of an event returns
and the invocations of `Handle` it makes on members are, in list order, one per
member that is enabled for the level of the event, each with the same context
and the same event; no member that is not enabled is invoked. -/
theorem fanOut_handle_calls {σ : Type} (env : SinkEnv σ) (h : Heap) (f : FanOutSink)
    (S : List SinkRef) (hm : f.getSinks.elems h = S.map some)
    (ctx : Context) (record : Record) (w : World σ) :
    ∃ res : Option GoError × World σ,
      f.Handle env h ctx record w = some res ∧
      res.2.calls = w.calls ++
        (S.filter fun s => env.enabled s ctx record.Level).map (fun s => Call.mk s ctx record) ∧
      ∀ s : SinkRef, env.enabled s ctx record.Level = false →
        ∀ c ∈ (S.filter fun s => env.enabled s ctx record.Level).map
            (fun s => Call.mk s ctx record), c.sink ≠ s := by
  refine ⟨_, fanOut_handle_members env h f S hm ctx record w, rfl, ?_⟩
  intro s hs c hc
  simp only [List.mem_map, List.mem_filter] at hc
  obtain ⟨a, ⟨_, ha⟩, rfl⟩ := hc
  intro hcs
  simp only at hcs
  rw [hcs, hs] at ha
  exact Bool.noConfusion ha

theorem fanOut_handle_calls_witness :
    exampleFanOut.2.getSinks.elems exampleFanOut.1 = [0, 1, 2].map some ∧
      ∃ res : Option GoError × World Nat,
        exampleFanOut.2.Handle exampleEnv exampleFanOut.1 0 exampleRecord exampleWorld
          = some res ∧
        res.2.calls = exampleWorld.calls ++
          (([0, 1, 2] : List SinkRef).filter
            fun s => exampleEnv.enabled s 0 exampleRecord.Level).map
              (fun s => Call.mk s 0 exampleRecord) ∧
        ∀ s : SinkRef, exampleEnv.enabled s 0 exampleRecord.Level = false →
          ∀ c ∈ (([0, 1, 2] : List SinkRef).filter
              fun s => exampleEnv.enabled s 0 exampleRecord.Level).map
                (fun s => Call.mk s 0 exampleRecord), c.sink ≠ s :=
  ⟨by decide, fanOut_handle_calls exampleEnv exampleFanOut.1 exampleFanOut.2 [0, 1, 2]
    (by decide) 0 exampleRecord exampleWorld⟩

/-- C3: for a fan-out whose member list is `S`, `Handle` returns the join of
exactly the non-nil errors that the enabled members returned, in order: it is
nil when there are none and otherwise holds that list; each of these errors is
found in the aggregate by `errors.Is`, and a target is found in the aggregate
only when it is the aggregate itself or is found in the error of an enabled
member (so not when only a disabled or absent member would return it). -/
theorem fanOut_handle_errors {σ : Type} (env : SinkEnv σ) (h : Heap) (f : FanOutSink)
    (S : List SinkRef) (hm : f.getSinks.elems h = S.map some)
    (ctx : Context) (record : Record) (w : World σ) :
    ∃ res : Option GoError × World σ,
      f.Handle env h ctx record w = some res ∧
      (res.1 = none ∧
          (memberResults env ctx record
            (S.filter fun s => env.enabled s ctx record.Level) w.state).1.filterMap id = [] ∨
        res.1 = some (GoError.joined
          ((memberResults env ctx record
            (S.filter fun s => env.enabled s ctx record.Level) w.state).1.filterMap id))) ∧
      (∀ e ∈ (memberResults env ctx record
            (S.filter fun s => env.enabled s ctx record.Level) w.state).1.filterMap id,
          errorsIs res.1 (some e) = true) ∧
      (∀ t : GoError, errorsIs res.1 (some t) = true ↔
        (res.1 = some t ∨
          ∃ e ∈ (memberResults env ctx record
              (S.filter fun s => env.enabled s ctx record.Level) w.state).1.filterMap id,
            GoError.is t e = true)) := by
  refine ⟨_, fanOut_handle_members env h f S hm ctx record w, ?_⟩
  simp only
  generalize (memberResults env ctx record
    (S.filter fun s => env.enabled s ctx record.Level) w.state).1 = rs
  unfold errorsJoin
  cases hes : rs.filterMap id with
  | nil => simp [errorsIs]
  | cons e es =>
    have hall : ∀ t : GoError, errorsIs (some (GoError.joined (e :: es))) (some t) = true ↔
        (some (GoError.joined (e :: es)) = some t ∨
          ∃ x ∈ e :: es, GoError.is t x = true) := by
      intro t
      simp only [errorsIs, GoError.is, Bool.or_eq_true, decide_eq_true_eq, GoError.isAny_iff,
        Option.some.injEq]
    refine ⟨Or.inr (by simp), ?_, ?_⟩
    · intro x hx
      simp only [List.isEmpty_cons, Bool.false_eq_true, if_false]
      exact (hall x).2 (Or.inr ⟨x, hx, GoError.is_self x⟩)
    · intro t
      simp only [List.isEmpty_cons, Bool.false_eq_true, if_false]
      exact hall t

theorem fanOut_handle_errors_witness :
    exampleFanOut.2.getSinks.elems exampleFanOut.1 = [0, 1, 2].map some ∧
      ∃ res : Option GoError × World Nat,
        exampleFanOut.2.Handle exampleEnv exampleFanOut.1 0 exampleRecord exampleWorld
          = some res ∧
        (res.1 = none ∧
            (memberResults exampleEnv 0 exampleRecord
              (([0, 1, 2] : List SinkRef).filter
                fun s => exampleEnv.enabled s 0 exampleRecord.Level)
              exampleWorld.state).1.filterMap id = [] ∨
          res.1 = some (GoError.joined
            ((memberResults exampleEnv 0 exampleRecord
              (([0, 1, 2] : List SinkRef).filter
                fun s => exampleEnv.enabled s 0 exampleRecord.Level)
              exampleWorld.state).1.filterMap id))) ∧
        (∀ e ∈ (memberResults exampleEnv 0 exampleRecord
              (([0, 1, 2] : List SinkRef).filter
                fun s => exampleEnv.enabled s 0 exampleRecord.Level)
              exampleWorld.state).1.filterMap id,
            errorsIs res.1 (some e) = true) ∧
        (∀ t : GoError, errorsIs res.1 (some t) = true ↔
          (res.1 = some t ∨
            ∃ e ∈ (memberResults exampleEnv 0 exampleRecord
                (([0, 1, 2] : List SinkRef).filter
                  fun s => exampleEnv.enabled s 0 exampleRecord.Level)
                exampleWorld.state).1.filterMap id,
              GoError.is t e = true)) :=
  ⟨by decide, fanOut_handle_errors exampleEnv exampleFanOut.1 exampleFanOut.2 [0, 1, 2]
    (by decide) 0 exampleRecord exampleWorld⟩

/-- C4: for a fan-out whose member list is `S`, `Handle` returns nil exactly
when every enabled member returned nil; in particular it returns nil for the
empty member list and when no member is enabled. -/
theorem fanOut_handle_nil_iff {σ : Type} (env : SinkEnv σ) (h : Heap) (f : FanOutSink)
    (S : List SinkRef) (hm : f.getSinks.elems h = S.map some)
    (ctx : Context) (record : Record) (w : World σ) :
    ∃ res : Option GoError × World σ,
      f.Handle env h ctx record w = some res ∧
      (res.1 = none ↔
        ∀ r ∈ (memberResults env ctx record
            (S.filter fun s => env.enabled s ctx record.Level) w.state).1, r = none) ∧
      (S = [] → res.1 = none) ∧
      ((∀ s ∈ S, env.enabled s ctx record.Level = false) → res.1 = none) := by
  refine ⟨_, fanOut_handle_members env h f S hm ctx record w, ?_, ?_, ?_⟩
  · exact errorsJoin_eq_none_iff _
  · intro hS
    subst hS
    rfl
  · intro hdis
    have hf : (S.filter fun s => env.enabled s ctx record.Level) = [] := by
      rw [List.filter_eq_nil_iff]
      intro s hs
      simp [hdis s hs]
    simp only [hf]
    rfl

theorem fanOut_handle_nil_iff_witness :
    exampleFanOut.2.getSinks.elems exampleFanOut.1 = [0, 1, 2].map some ∧
      ∃ res : Option GoError × World Nat,
        exampleFanOut.2.Handle exampleEnv exampleFanOut.1 0 exampleRecord exampleWorld
          = some res ∧
        (res.1 = none ↔
          ∀ r ∈ (memberResults exampleEnv 0 exampleRecord
              (([0, 1, 2] : List SinkRef).filter
                fun s => exampleEnv.enabled s 0 exampleRecord.Level)
              exampleWorld.state).1, r = none) ∧
        (([0, 1, 2] : List SinkRef) = [] → res.1 = none) ∧
        ((∀ s ∈ ([0, 1, 2] : List SinkRef),
            exampleEnv.enabled s 0 exampleRecord.Level = false) → res.1 = none) :=
  ⟨by decide, fanOut_handle_nil_iff exampleEnv exampleFanOut.1 exampleFanOut.2 [0, 1, 2]
    (by decide) 0 exampleRecord exampleWorld⟩

theorem slicesIndex_none_iff (xs : List Sink) (v : Sink) :
    slicesIndex xs v = none ↔ v ∉ xs := by
  induction xs with
  | nil => simp [slicesIndex]
  | cons x rest ih =>
    by_cases hx : x = v
    · simp [slicesIndex, hx]
    · have hx2 : ¬ v = x := fun e => hx e.symm
      simp [slicesIndex, hx, hx2, ih]

theorem slicesIndex_some (xs : List Sink) (v : Sink) (i : Nat)
    (hi : slicesIndex xs v = some i) :
    ∃ pre post, xs = pre ++ v :: post ∧ pre.length = i ∧ v ∉ pre := by
  induction xs generalizing i with
  | nil => simp [slicesIndex] at hi
  | cons x rest ih =>
    by_cases hx : x = v
    · simp only [slicesIndex, hx, if_true, Option.some.injEq] at hi
      exact ⟨[], rest, by simp [hx], by simpa using hi, by simp⟩
    · simp only [slicesIndex, hx, if_false, Option.map_eq_some'] at hi
      obtain ⟨k, hk, rfl⟩ := hi
      obtain ⟨pre, post, hxs, hlen, hnot⟩ := ih k hk
      have hx2 : ¬ v = x := fun e => hx e.symm
      exact ⟨x :: pre, post, by simp [hxs], by simp [hlen], by simp [hnot, hx2]⟩

theorem first_occurrence (pre post : List Sink) (v : Sink) (hnot : v ∉ pre) :
    pre.length < (pre ++ v :: post).length ∧
      (pre ++ v :: post)[pre.length]? = some v ∧
      ∀ j, j < pre.length → (pre ++ v :: post)[j]? ≠ some v := by
  refine ⟨by simp, ?_, ?_⟩
  · rw [List.getElem?_append_right (Nat.le_refl _)]
    simp
  · intro j hj hv
    rw [List.getElem?_append_left hj] at hv
    exact hnot (List.getElem?_mem hv)

theorem swap_remove_perm (pre post : List Sink) (v : Sink) :
    (v :: ((pre ++ v :: post).set pre.length ((pre ++ v :: post).getLastD none)).dropLast).Perm
      (pre ++ v :: post) := by
  rcases List.eq_nil_or_concat post with hp | ⟨q, z, hp⟩
  · subst hp
    rw [List.getLastD_concat, List.set_append_right _ _ (Nat.le_refl _)]
    simp only [Nat.sub_self, List.set_cons_zero, List.dropLast_concat]
    exact (List.perm_append_singleton v pre).symm
  · subst hp
    have hl : (pre ++ v :: q.concat z).getLastD none = z := by
      rw [show pre ++ v :: q.concat z = (pre ++ v :: q) ++ [z] by simp]
      exact List.getLastD_concat _ _ _
    rw [hl, List.set_append_right _ _ (Nat.le_refl _)]
    simp only [Nat.sub_self, List.set_cons_zero, List.concat_eq_append]
    have hd : (pre ++ z :: (q ++ [z])).dropLast = pre ++ z :: q := by
      rw [show pre ++ z :: (q ++ [z]) = (pre ++ z :: q) ++ [z] by simp]
      exact List.dropLast_concat
    rw [hd]
    have h1 : (v :: (pre ++ z :: q)).Perm (v :: z :: (pre ++ q)) :=
      List.Perm.cons v List.perm_middle
    have h2 : (pre ++ v :: (q ++ [z])).Perm (v :: (pre ++ (q ++ [z]))) := List.perm_middle
    have h3 : (pre ++ (q ++ [z])).Perm (z :: (pre ++ q)) := by
      rw [← List.append_assoc]
      exact List.perm_append_singleton z (pre ++ q)
    exact h1.trans ((List.Perm.cons v h3).symm.trans h2.symm)

theorem load_store_same (h : Heap) (a i : Nat) (v : Sink) (ha : a < h.arrays.length) :
    (h.store a i v).load a = (h.load a).set i v := by
  simp [Heap.store, Heap.load, List.getD_eq_getElem?_getD, List.getElem?_set, ha]

theorem store_arrays_length (h : Heap) (a i : Nat) (v : Sink) :
    (h.store a i v).arrays.length = h.arrays.length := by
  simp [Heap.store]

theorem remove_array_take (A : List Sink) (n i : Nat) (hn : n ≤ A.length) (hi : i < n) :
    ((if i ≠ n - 1 then A.set i (A.getD (n - 1) none) else A).set (n - 1) none).take (n - 1)
      = ((A.take n).set i ((A.take n).getLastD none)).dropLast := by
  apply List.ext_getElem?
  intro j
  simp only [List.dropLast_eq_take, List.length_set, List.length_take, List.getElem?_take,
    List.getLastD_eq_getLast?, List.getLast?_eq_getElem?, List.getD_eq_getElem?_getD,
    Nat.min_eq_left hn]
  by_cases hj : j < n - 1
  · have hjn : j < n := by omega
    have hne : ¬ n - 1 = j := by omega
    have hlt : n - 1 < n := by omega
    by_cases hin : i = n - 1
    · have hij : ¬ i = j := by omega
      simp [hj, hin, List.getElem?_set, hne, List.getElem?_take, hjn]
    · by_cases hij : i = j
      · subst hij
        have hiA : i < A.length := by omega
        simp [hj, hin, List.getElem?_set, hne, List.getElem?_take, hjn, hlt, hiA, hn, hi]
      · simp [hj, hin, List.getElem?_set, hne, List.getElem?_take, hjn, hij]
  · simp [hj]

theorem newFanOutSink_wf_elems (h : Heap) (sinks : List Sink) :
    (NewFanOutSink h sinks).2.WF (NewFanOutSink h sinks).1 ∧
      (NewFanOutSink h sinks).2.getSinks.elems (NewFanOutSink h sinks).1 = sinks := by
  have hload : (h.alloc sinks).1.load (h.alloc sinks).2 = sinks := by
    simp [Heap.alloc, Heap.load, List.getD_eq_getElem?_getD]
  refine ⟨⟨?_, ?_⟩, ?_⟩
  · simp [NewFanOutSink, Heap.alloc]
  · simp only [NewFanOutSink, Slice.cap, hload]
    exact Nat.le_refl _
  · simp only [NewFanOutSink, FanOutSink.getSinks, Slice.elems, hload, List.take_length]

theorem removeSink_absent (h : Heap) (f : FanOutSink) (s : Sink)
    (hs : s ∉ f.getSinks.elems h) : f.RemoveSink h s = (false, h, f) := by
  simp only [FanOutSink.RemoveSink, (slicesIndex_none_iff _ _).2 hs]

theorem removeSink_present (h : Heap) (f : FanOutSink) (hwf : f.WF h) (s : Sink) (i : Nat)
    (hi : slicesIndex (f.getSinks.elems h) s = some i) :
    (f.RemoveSink h s).1 = true ∧
      (f.RemoveSink h s).2.2.WF (f.RemoveSink h s).2.1 ∧
      (f.RemoveSink h s).2.2.getSinks.elems (f.RemoveSink h s).2.1
        = ((f.getSinks.elems h).set i ((f.getSinks.elems h).getLastD none)).dropLast := by
  obtain ⟨harr, hlen⟩ := hwf
  obtain ⟨pre, post, hL, hpre, _⟩ := slicesIndex_some _ _ _ hi
  have hLlen : (f.getSinks.elems h).length = pre.length + (post.length + 1) := by
    rw [hL]; simp
  simp only [FanOutSink.getSinks, Slice.elems, Slice.cap] at hL hLlen hlen hi ⊢
  rw [List.length_take, Nat.min_eq_left hlen] at hLlen
  have hin : i < f.sinks.len := by omega
  simp only [FanOutSink.RemoveSink, FanOutSink.getSinks, Slice.elems, hi]
  refine ⟨trivial, ?_, ?_⟩
  · constructor
    · simp only [store_arrays_length]
      split <;> simp [store_arrays_length, harr]
    · simp only [Slice.cap]
      by_cases hc : i = f.sinks.len - 1
      · simp only [hc, ne_eq, not_true_eq_false, if_false]
        rw [load_store_same _ _ _ _ harr, List.length_set]
        omega
      · simp only [ne_eq, hc, not_false_eq_true, if_true]
        rw [load_store_same _ _ _ _ (by simpa [store_arrays_length] using harr),
          load_store_same _ _ _ _ harr, List.length_set, List.length_set]
        omega
  · rw [← remove_array_take (h.load f.sinks.arr) f.sinks.len i hlen hin]
    by_cases hc : i = f.sinks.len - 1
    · simp only [hc, ne_eq, not_true_eq_false, if_false]
      rw [load_store_same _ _ _ _ harr]
    · simp only [ne_eq, hc, not_false_eq_true, if_true]
      rw [load_store_same _ _ _ _ (by simpa [store_arrays_length] using harr),
        load_store_same _ _ _ _ harr]
      rfl

theorem removeSink_mem (h : Heap) (f : FanOutSink) (hwf : f.WF h) (s : Sink)
    (hs : s ∈ f.getSinks.elems h) :
    ∃ i, i < (f.getSinks.elems h).length ∧
      (f.getSinks.elems h)[i]? = some s ∧
      (∀ j, j < i → (f.getSinks.elems h)[j]? ≠ some s) ∧
      (f.RemoveSink h s).1 = true ∧
      (f.RemoveSink h s).2.2.WF (f.RemoveSink h s).2.1 ∧
      (f.RemoveSink h s).2.2.getSinks.elems (f.RemoveSink h s).2.1
        = ((f.getSinks.elems h).set i ((f.getSinks.elems h).getLastD none)).dropLast ∧
      (s :: (f.RemoveSink h s).2.2.getSinks.elems (f.RemoveSink h s).2.1).Perm
        (f.getSinks.elems h) := by
  cases hi : slicesIndex (f.getSinks.elems h) s with
  | none => exact absurd hs ((slicesIndex_none_iff _ _).1 hi)
  | some i =>
    obtain ⟨pre, post, hL, hpre, hnot⟩ := slicesIndex_some _ _ _ hi
    obtain ⟨h1, h2, h3⟩ := removeSink_present h f hwf s i hi
    obtain ⟨f1, f2, f3⟩ := first_occurrence pre post s hnot
    refine ⟨i, ?_, ?_, ?_, h1, h2, h3, ?_⟩
    · rw [hL, ← hpre]; exact f1
    · rw [hL, ← hpre]; exact f2
    · rw [hL, ← hpre]; exact f3
    · rw [h3, hL, ← hpre]
      exact swap_remove_perm pre post s

theorem removeEach_perm (order : List Sink) (h : Heap) (f : FanOutSink) (hwf : f.WF h)
    (hp : order.Perm (f.getSinks.elems h)) :
    (removeEach h f order).1 = order.map (fun _ => true) ∧
      (removeEach h f order).2.2.getSinks.elems (removeEach h f order).2.1 = [] := by
  induction order generalizing h f with
  | nil => exact ⟨rfl, (List.nil_perm.1 hp)⟩
  | cons s rest ih =>
    have hs : s ∈ f.getSinks.elems h := hp.subset (List.mem_cons_self s rest)
    obtain ⟨i, _, _, _, h1, h2, _, h4⟩ := removeSink_mem h f hwf s hs
    have hrest : rest.Perm
        ((f.RemoveSink h s).2.2.getSinks.elems (f.RemoveSink h s).2.1) :=
      (hp.trans h4.symm).cons_inv
    obtain ⟨ih1, ih2⟩ := ih _ _ h2 hrest
    exact ⟨by simp [removeEach, h1, ih1], by simpa [removeEach] using ih2⟩

theorem fanOut_empty_behaviour {σ : Type} (env : SinkEnv σ) (h : Heap) (f : FanOutSink)
    (he : f.getSinks.elems h = []) (ctx : Context) :
    (∀ level, f.Enabled env h ctx level = some false) ∧
      ∀ record (w : World σ), f.Handle env h ctx record w = some (none, w) := by
  constructor
  · intro level
    simp [FanOutSink.Enabled, he, enabledLoop]
  · intro record w
    simp [FanOutSink.Handle, he, handleLoop, errorsJoin]

/-! ## The fan-out sink: `RemoveSink` -/

/-- C5: on a well-formed fan-out with member list `L`, `RemoveSink(s)` returns
false and changes nothing when `s` does not occur in `L`; otherwise, with `i`
the index of the first occurrence of `s`, it returns true and the new member
list is `L` with slot `i` overwritten by the last element of `L` and the last
slot dropped: its length is one less and, as a multiset, `L` is the new list
plus one occurrence of `s`. -/
theorem removeSink_reference (h : Heap) (f : FanOutSink) (hwf : f.WF h) (s : Sink) :
    (s ∉ f.getSinks.elems h → f.RemoveSink h s = (false, h, f)) ∧
    (s ∈ f.getSinks.elems h →
      ∃ i, i < (f.getSinks.elems h).length ∧
        (f.getSinks.elems h)[i]? = some s ∧
        (∀ j, j < i → (f.getSinks.elems h)[j]? ≠ some s) ∧
        (f.RemoveSink h s).1 = true ∧
        (f.RemoveSink h s).2.2.getSinks.elems (f.RemoveSink h s).2.1
          = ((f.getSinks.elems h).set i ((f.getSinks.elems h).getLastD none)).dropLast ∧
        ((f.RemoveSink h s).2.2.getSinks.elems (f.RemoveSink h s).2.1).length
          = (f.getSinks.elems h).length - 1 ∧
        (s :: (f.RemoveSink h s).2.2.getSinks.elems (f.RemoveSink h s).2.1).Perm
          (f.getSinks.elems h)) := by
  refine ⟨removeSink_absent h f s, ?_⟩
  intro hs
  obtain ⟨i, h1, h2, h3, h4, _, h6, h7⟩ := removeSink_mem h f hwf s hs
  refine ⟨i, h1, h2, h3, h4, h6, ?_, h7⟩
  have hl := h7.length_eq
  simp only [List.length_cons] at hl
  omega

theorem removeSink_reference_witness :
    exampleFanOut.2.WF exampleFanOut.1 ∧
    ((some 0 ∉ exampleFanOut.2.getSinks.elems exampleFanOut.1 →
        exampleFanOut.2.RemoveSink exampleFanOut.1 (some 0)
          = (false, exampleFanOut.1, exampleFanOut.2)) ∧
      (some 0 ∈ exampleFanOut.2.getSinks.elems exampleFanOut.1 →
        ∃ i, i < (exampleFanOut.2.getSinks.elems exampleFanOut.1).length ∧
          (exampleFanOut.2.getSinks.elems exampleFanOut.1)[i]? = some (some 0) ∧
          (∀ j, j < i → (exampleFanOut.2.getSinks.elems exampleFanOut.1)[j]? ≠ some (some 0)) ∧
          (exampleFanOut.2.RemoveSink exampleFanOut.1 (some 0)).1 = true ∧
          (exampleFanOut.2.RemoveSink exampleFanOut.1 (some 0)).2.2.getSinks.elems
              (exampleFanOut.2.RemoveSink exampleFanOut.1 (some 0)).2.1
            = ((exampleFanOut.2.getSinks.elems exampleFanOut.1).set i
                ((exampleFanOut.2.getSinks.elems exampleFanOut.1).getLastD none)).dropLast ∧
          ((exampleFanOut.2.RemoveSink exampleFanOut.1 (some 0)).2.2.getSinks.elems
              (exampleFanOut.2.RemoveSink exampleFanOut.1 (some 0)).2.1).length
            = (exampleFanOut.2.getSinks.elems exampleFanOut.1).length - 1 ∧
          (some 0 :: (exampleFanOut.2.RemoveSink exampleFanOut.1 (some 0)).2.2.getSinks.elems
              (exampleFanOut.2.RemoveSink exampleFanOut.1 (some 0)).2.1).Perm
            (exampleFanOut.2.getSinks.elems exampleFanOut.1))) :=
  ⟨by decide, removeSink_reference exampleFanOut.1 exampleFanOut.2 (by decide) (some 0)⟩

/-- C6, as stated, fails when a sink occurs twice in the member list: for
`NewFanOutSink(s0, s0)` the first and the second `RemoveSink(s0)` both return
true, and after one `RemoveSink` for the only distinct member the fan-out is
still enabled at level 0, unlike an empty fan-out. -/
theorem removeSink_duplicate_counterexample :
    (duplicateFanOut.2.RemoveSink duplicateFanOut.1 (some 0)).1 = true ∧
    ((duplicateFanOut.2.RemoveSink duplicateFanOut.1 (some 0)).2.2.RemoveSink
        (duplicateFanOut.2.RemoveSink duplicateFanOut.1 (some 0)).2.1 (some 0)).1 = true ∧
    (duplicateFanOut.2.RemoveSink duplicateFanOut.1 (some 0)).2.2.Enabled exampleEnv
        (duplicateFanOut.2.RemoveSink duplicateFanOut.1 (some 0)).2.1 0 0 = some true := by
  decide

/-- C6, amended: on a well-formed fan-out whose member list `L` holds no sink
twice, `RemoveSink(s)` returns true for a member and a second `RemoveSink(s)`
right after returns false, it returns false for a sink that is not a member,
and after one `RemoveSink` per member, in any order, every call having returned
true, the member list is empty: `Enabled` is false at every level and `Handle`
invokes no member and returns nil. -/
theorem removeSink_distinct_members {σ : Type} (env : SinkEnv σ) (h : Heap) (f : FanOutSink)
    (hwf : f.WF h) (hnd : (f.getSinks.elems h).Nodup) :
    (∀ s ∈ f.getSinks.elems h,
      (f.RemoveSink h s).1 = true ∧
      ((f.RemoveSink h s).2.2.RemoveSink (f.RemoveSink h s).2.1 s).1 = false) ∧
    (∀ s, s ∉ f.getSinks.elems h → (f.RemoveSink h s).1 = false) ∧
    (∀ order : List Sink, order.Perm (f.getSinks.elems h) →
      (removeEach h f order).1 = order.map (fun _ => true) ∧
      (removeEach h f order).2.2.getSinks.elems (removeEach h f order).2.1 = [] ∧
      ∀ ctx,
        (∀ level, (removeEach h f order).2.2.Enabled env (removeEach h f order).2.1 ctx level
          = some false) ∧
        ∀ record (w : World σ),
          (removeEach h f order).2.2.Handle env (removeEach h f order).2.1 ctx record w
            = some (none, w)) := by
  refine ⟨?_, ?_, ?_⟩
  · intro s hs
    obtain ⟨i, _, _, _, h1, _, _, h4⟩ := removeSink_mem h f hwf s hs
    refine ⟨h1, ?_⟩
    have hnd2 : (s :: (f.RemoveSink h s).2.2.getSinks.elems (f.RemoveSink h s).2.1).Nodup :=
      h4.nodup_iff.2 hnd
    rw [removeSink_absent _ _ s (List.nodup_cons.1 hnd2).1]
  · intro s hs
    rw [removeSink_absent h f s hs]
  · intro order hp
    obtain ⟨h1, h2⟩ := removeEach_perm order h f hwf hp
    exact ⟨h1, h2, fun ctx => fanOut_empty_behaviour env _ _ h2 ctx⟩

theorem removeSink_distinct_members_witness :
    exampleFanOut.2.WF exampleFanOut.1 ∧
    (exampleFanOut.2.getSinks.elems exampleFanOut.1).Nodup ∧
    ((∀ s ∈ exampleFanOut.2.getSinks.elems exampleFanOut.1,
        (exampleFanOut.2.RemoveSink exampleFanOut.1 s).1 = true ∧
        ((exampleFanOut.2.RemoveSink exampleFanOut.1 s).2.2.RemoveSink
          (exampleFanOut.2.RemoveSink exampleFanOut.1 s).2.1 s).1 = false) ∧
      (∀ s, s ∉ exampleFanOut.2.getSinks.elems exampleFanOut.1 →
        (exampleFanOut.2.RemoveSink exampleFanOut.1 s).1 = false) ∧
      (∀ order : List Sink, order.Perm (exampleFanOut.2.getSinks.elems exampleFanOut.1) →
        (removeEach exampleFanOut.1 exampleFanOut.2 order).1 = order.map (fun _ => true) ∧
        (removeEach exampleFanOut.1 exampleFanOut.2 order).2.2.getSinks.elems
          (removeEach exampleFanOut.1 exampleFanOut.2 order).2.1 = [] ∧
        ∀ ctx,
          (∀ level, (removeEach exampleFanOut.1 exampleFanOut.2 order).2.2.Enabled exampleEnv
              (removeEach exampleFanOut.1 exampleFanOut.2 order).2.1 ctx level = some false) ∧
          ∀ record (w : World Nat),
            (removeEach exampleFanOut.1 exampleFanOut.2 order).2.2.Handle exampleEnv
                (removeEach exampleFanOut.1 exampleFanOut.2 order).2.1 ctx record w
              = some (none, w))) :=
  ⟨by decide, by decide,
    removeSink_distinct_members exampleEnv exampleFanOut.1 exampleFanOut.2 (by decide)
      (by decide)⟩

/-- C7 fails on the code: `RemoveSink` writes into the backing array that an
earlier loaded snapshot shares. For `NewFanOutSink(s0, s1, s2)` a snapshot
loaded before `RemoveSink(s0)` reads `[s0, s1, s2]` before the call and
`[s2, s1, nil]` after it; a following `AddSink(s5)` writes the freed slot, so
the same snapshot then reads `[s2, s1, s5]`. The snapshot keeps its length, and
its slots do not keep their members; a reader that walks the snapshot after the
removal reaches the nil slot, and the `Enabled` loop panics there. -/
theorem removeSink_changes_snapshot :
    exampleFanOut.2.getSinks.elems exampleFanOut.1 = [some 0, some 1, some 2] ∧
    exampleFanOut.2.getSinks.elems (exampleFanOut.2.RemoveSink exampleFanOut.1 (some 0)).2.1
      = [some 2, some 1, none] ∧
    exampleFanOut.2.getSinks.elems
        ((exampleFanOut.2.RemoveSink exampleFanOut.1 (some 0)).2.2.AddSink (fun c => 2 * c)
          (exampleFanOut.2.RemoveSink exampleFanOut.1 (some 0)).2.1 (some 5)).1
      = [some 2, some 1, some 5] ∧
    enabledLoop exampleEnv 0 (-1)
        (exampleFanOut.2.getSinks.elems (exampleFanOut.2.RemoveSink exampleFanOut.1 (some 0)).2.1)
      = none := by
  decide

theorem writerSink_handleAll_spec {ω : Type} (evs : List (Context × Record))
    (s : WriterSink ω) (out : Output ω) :
    (s.handleAll evs out).1
        = (writeResults s.Writer
            (evs.map fun e => s.Format [] e.1 e.2 ++ [Char.ofNat 10]) out.state).1 ∧
      (s.handleAll evs out).2.2.state
        = (writeResults s.Writer
            (evs.map fun e => s.Format [] e.1 e.2 ++ [Char.ofNat 10]) out.state).2 ∧
      (s.handleAll evs out).2.2.writes
        = out.writes ++ evs.map fun e => s.Format [] e.1 e.2 ++ [Char.ofNat 10] := by
  induction evs generalizing s out with
  | nil => simp [WriterSink.handleAll, writeResults]
  | cons e rest ih =>
    obtain ⟨c, r⟩ := e
    have h := ih (s.Handle c r out).2.1 (s.Handle c r out).2.2
    simp only [WriterSink.Handle, List.take_zero] at h
    simp only [WriterSink.handleAll, WriterSink.Handle, List.take_zero, List.map_cons,
      writeResults]
    obtain ⟨h1, h2, h3⟩ := h
    refine ⟨?_, ?_, ?_⟩
    · rw [h1]
    · rw [h2]
    · rw [h3]; simp

mutual
theorem isEmptyGroup_eq_recursivelyEmpty : ∀ a : Attr, isEmptyGroup a = recursivelyEmpty a
  | .mk _ (.scalar _) => by simp [isEmptyGroup, recursivelyEmpty]
  | .mk _ (.group g) => by
    have h := countEmptyGroups_spec g
    simp only [isEmptyGroup, recursivelyEmpty]
    cases hg : allRecursivelyEmpty g
    · have : ¬ countEmptyGroups g = g.length := fun e => by
        have := h.2.1 e; rw [hg] at this; exact Bool.noConfusion this
      simp only [beq_eq_false_iff_ne, ne_eq]
      exact fun e => this e.symm
    · simp [beq_iff_eq, (h.2.2 hg)]
theorem countEmptyGroups_spec : ∀ l : List Attr,
    countEmptyGroups l ≤ l.length ∧
      (countEmptyGroups l = l.length → allRecursivelyEmpty l = true) ∧
      (allRecursivelyEmpty l = true → countEmptyGroups l = l.length)
  | [] => by simp [countEmptyGroups, allRecursivelyEmpty]
  | a :: rest => by
    have ha := isEmptyGroup_eq_recursivelyEmpty a
    have hr := countEmptyGroups_spec rest
    simp only [countEmptyGroups, allRecursivelyEmpty, List.length_cons, ha]
    cases hra : recursivelyEmpty a
    · simp only [Bool.false_eq_true, if_false, Bool.false_and]
      refine ⟨by omega, ?_, ?_⟩
      · intro e; omega
      · intro e; exact e.elim
    · simp only [if_true, Bool.true_and]
      refine ⟨by omega, ?_, ?_⟩
      · intro e; exact hr.2.1 (by omega)
      · intro e; have := hr.2.2 e; omega
end

theorem allRecursivelyEmpty_iff (l : List Attr) :
    allRecursivelyEmpty l = true ↔ ∀ a ∈ l, recursivelyEmpty a = true := by
  induction l with
  | nil => simp [allRecursivelyEmpty]
  | cons a rest ih => simp [allRecursivelyEmpty, ih]

theorem countEmptyGroups_zero_filter (l : List Attr) (h0 : countEmptyGroups l = 0) :
    l.filter (fun a => !isEmptyGroup a) = l := by
  induction l with
  | nil => rfl
  | cons a rest ih =>
    simp only [countEmptyGroups] at h0
    cases ha : isEmptyGroup a
    · rw [ha] at h0
      simp only [Bool.false_eq_true, if_false, Nat.zero_add] at h0
      simp [List.filter_cons, ha, ih h0]
    · rw [ha] at h0
      simp at h0

theorem slog_empty_is_recursivelyEmpty (a : Attr) (h : a.Value.isEmptyGroup = true) :
    recursivelyEmpty a = true := by
  cases a with
  | mk k v =>
    cases v with
    | scalar s => simp [Attr.Value, Value.isEmptyGroup] at h
    | group g =>
      cases g with
      | nil => simp [recursivelyEmpty, allRecursivelyEmpty]
      | cons x xs => simp [Attr.Value, Value.isEmptyGroup] at h

theorem withAttrs_all_empty (h : Handler) (list : List Attr)
    (hl : ∀ a ∈ list, recursivelyEmpty a = true) : withAttrs h list = h := by
  have hc := (countEmptyGroups_spec list).2.2 ((allRecursivelyEmpty_iff list).2 hl)
  simp [withAttrs, hc]

theorem withAttrs_some_kept (h : Handler) (list : List Attr)
    (hl : ∃ a ∈ list, recursivelyEmpty a = false) :
    withAttrs h list
      = Handler.attrsHandler h (list.filter fun a => !recursivelyEmpty a) := by
  have hne : ¬ countEmptyGroups list = list.length := by
    intro e
    have hall := (allRecursivelyEmpty_iff list).1 ((countEmptyGroups_spec list).2.1 e)
    obtain ⟨a, ha, hf⟩ := hl
    rw [hall a ha] at hf
    exact Bool.noConfusion hf
  have hfun : (fun a => !isEmptyGroup a) = fun a => !recursivelyEmpty a := by
    funext a
    rw [isEmptyGroup_eq_recursivelyEmpty]
  simp only [withAttrs, hne, if_false]
  by_cases h0 : countEmptyGroups list = 0
  · simp only [h0, ne_eq, not_true_eq_false, if_false]
    rw [← hfun, countEmptyGroups_zero_filter list h0]
  · simp only [ne_eq, h0, not_false_eq_true, if_true, hfun]

/-! ## The writer sink -/

/-- C8: for every sequence of events handled by one writer sink, whatever its
buffer held before, the buffers passed to `Write` are, one per event and in
order, the rendering of the event by the formatter into an empty buffer followed
by one line feed, and the errors returned by the `Handle` calls are exactly the
errors returned by these writes. -/
theorem writerSink_one_write_per_event {ω : Type} (s : WriterSink ω)
    (evs : List (Context × Record)) (out : Output ω) :
    (s.handleAll evs out).2.2.writes
        = out.writes ++ evs.map (fun e => s.Format [] e.1 e.2 ++ [Char.ofNat 10]) ∧
      (s.handleAll evs out).1
        = (writeResults s.Writer
            (evs.map fun e => s.Format [] e.1 e.2 ++ [Char.ofNat 10]) out.state).1 ∧
      (s.handleAll evs out).2.2.state
        = (writeResults s.Writer
            (evs.map fun e => s.Format [] e.1 e.2 ++ [Char.ofNat 10]) out.state).2 ∧
      ((s.handleAll evs out).1).length = evs.length := by
  obtain ⟨h1, h2, h3⟩ := writerSink_handleAll_spec evs s out
  refine ⟨h3, h1, h2, ?_⟩
  clear h1 h2 h3
  induction evs generalizing s out with
  | nil => rfl
  | cons e rest ih =>
    obtain ⟨c, r⟩ := e
    simp only [WriterSink.handleAll, List.length_cons, ih]

/-! ## The handler chain -/

/-- C9: for every handler `h` of the chain, `WithAttrs` of a list all of whose
entries are recursively empty groups (the empty list among them) and
`WithGroup` of the empty name return `h` itself, with no node added, so that
`Enabled` and `Handle` on the result are those of `h`. -/
theorem derive_noop_is_receiver {σ : Type} (env : SinkEnv σ) (h : Handler) (list : List Attr)
    (hl : ∀ a ∈ list, recursivelyEmpty a = true) :
    h.WithAttrs list = h ∧ h.WithAttrs [] = h ∧ h.WithGroup "" = h ∧
      (h.WithAttrs list).depth = h.depth ∧ (h.WithGroup "").depth = h.depth ∧
      (∀ ctx level, (h.WithAttrs list).Enabled env ctx level = h.Enabled env ctx level) ∧
      (∀ ctx record (w : World σ),
        (h.WithAttrs list).Handle env ctx record w = h.Handle env ctx record w) ∧
      (∀ ctx level, (h.WithGroup "").Enabled env ctx level = h.Enabled env ctx level) ∧
      (∀ ctx record (w : World σ),
        (h.WithGroup "").Handle env ctx record w = h.Handle env ctx record w) := by
  have h1 : h.WithAttrs list = h := withAttrs_all_empty h list hl
  have h2 : h.WithAttrs [] = h := withAttrs_all_empty h [] (by simp)
  have h3 : h.WithGroup "" = h := by simp [Handler.WithGroup, withGroup]
  refine ⟨h1, h2, h3, ?_, ?_, ?_, ?_, ?_, ?_⟩
  · rw [h1]
  · rw [h3]
  · intro ctx level; rw [h1]
  · intro ctx record w; rw [h1]
  · intro ctx level; rw [h3]
  · intro ctx record w; rw [h3]

theorem derive_noop_is_receiver_witness :
    (∀ a ∈ emptyGroupsList, recursivelyEmpty a = true) ∧
      (exampleHandler.WithAttrs emptyGroupsList = exampleHandler ∧
        exampleHandler.WithAttrs [] = exampleHandler ∧
        exampleHandler.WithGroup "" = exampleHandler ∧
        (exampleHandler.WithAttrs emptyGroupsList).depth = exampleHandler.depth ∧
        (exampleHandler.WithGroup "").depth = exampleHandler.depth ∧
        (∀ ctx level, (exampleHandler.WithAttrs emptyGroupsList).Enabled exampleEnv ctx level
          = exampleHandler.Enabled exampleEnv ctx level) ∧
        (∀ ctx record (w : World Nat),
          (exampleHandler.WithAttrs emptyGroupsList).Handle exampleEnv ctx record w
            = exampleHandler.Handle exampleEnv ctx record w) ∧
        (∀ ctx level, (exampleHandler.WithGroup "").Enabled exampleEnv ctx level
          = exampleHandler.Enabled exampleEnv ctx level) ∧
        (∀ ctx record (w : World Nat),
          (exampleHandler.WithGroup "").Handle exampleEnv ctx record w
            = exampleHandler.Handle exampleEnv ctx record w)) :=
  ⟨by decide, derive_noop_is_receiver exampleEnv exampleHandler emptyGroupsList (by decide)⟩

/-- C10: for every handler `h`, every attribute list with at least one entry
that is not a recursively empty group, and every event, `WithAttrs` adds one
node, and `Handle` on the result is `Handle` of `h` on the event with the same
time, level, message and program counter whose attributes are those of the
event followed by the entries of the list that are not recursively empty
groups, in their order; the result of `h` is returned as it is. -/
theorem withAttrs_handle_appends {σ : Type} (env : SinkEnv σ) (h : Handler) (list : List Attr)
    (hl : ∃ a ∈ list, recursivelyEmpty a = false)
    (ctx : Context) (record : Record) (w : World σ) :
    h.WithAttrs list = Handler.attrsHandler h (list.filter fun a => !recursivelyEmpty a) ∧
      (h.WithAttrs list).Handle env ctx record w
        = h.Handle env ctx
            { Time := record.Time, Message := record.Message, Level := record.Level,
              PC := record.PC,
              attrs := record.attrs ++ list.filter fun a => !recursivelyEmpty a } w := by
  have h1 : h.WithAttrs list
      = Handler.attrsHandler h (list.filter fun a => !recursivelyEmpty a) :=
    withAttrs_some_kept h list hl
  refine ⟨h1, ?_⟩
  rw [h1]
  simp only [Handler.Handle, Record.AddAttrs, List.filter_filter]
  have hf : (list.filter fun a => (!a.Value.isEmptyGroup) && !recursivelyEmpty a)
      = list.filter fun a => !recursivelyEmpty a := by
    apply List.filter_congr
    intro a _
    cases hr : recursivelyEmpty a
    · cases hv : a.Value.isEmptyGroup
      · rfl
      · rw [slog_empty_is_recursivelyEmpty a hv] at hr
        exact Bool.noConfusion hr
    · simp
  rw [hf]

theorem withAttrs_handle_appends_witness :
    (∃ a ∈ mixedList, recursivelyEmpty a = false) ∧
      (exampleHandler.WithAttrs mixedList
          = Handler.attrsHandler exampleHandler
              (mixedList.filter fun a => !recursivelyEmpty a) ∧
        (exampleHandler.WithAttrs mixedList).Handle exampleEnv 0 exampleRecord exampleWorld
          = exampleHandler.Handle exampleEnv 0
              { Time := exampleRecord.Time, Message := exampleRecord.Message,
                Level := exampleRecord.Level, PC := exampleRecord.PC,
                attrs := exampleRecord.attrs ++
                  mixedList.filter fun a => !recursivelyEmpty a } exampleWorld) :=
  ⟨by decide, withAttrs_handle_appends exampleEnv exampleHandler mixedList (by decide) 0
    exampleRecord exampleWorld⟩

/-! ## The handler chain: groups and composition -/

theorem scalarAttrs_not_empty_group (kvs : List (String × Scalar)) :
    ∀ a ∈ scalarAttrs kvs, a.Value.isEmptyGroup = false := by
  intro a ha
  simp only [scalarAttrs, List.mem_map] at ha
  obtain ⟨kv, _, rfl⟩ := ha
  rfl

theorem filter_nonEmpty_eq_self (l : List Attr) (hl : ∀ a ∈ l, a.Value.isEmptyGroup = false) :
    l.filter (fun a => !a.Value.isEmptyGroup) = l := by
  rw [List.filter_eq_self]
  intro a ha
  simp [hl a ha]

theorem filter_nonEmpty_eq_nil (l : List Attr) (hl : ∀ a ∈ l, a.Value.isEmptyGroup = true) :
    l.filter (fun a => !a.Value.isEmptyGroup) = [] := by
  rw [List.filter_eq_nil_iff]
  intro a ha
  simp [hl a ha]

theorem groupValue_isEmptyGroup_false (l : List Attr)
    (hl : ∃ a ∈ l, a.Value.isEmptyGroup = false) :
    (GroupValue l).isEmptyGroup = false := by
  obtain ⟨a, ha, hne⟩ := hl
  have hm : a ∈ l.filter (fun a => !a.Value.isEmptyGroup) := by
    simp [List.mem_filter, ha, hne]
  unfold GroupValue
  cases hf : l.filter (fun a => !a.Value.isEmptyGroup) with
  | nil => rw [hf] at hm; cases hm
  | cons x xs => rfl

theorem groupValue_isEmptyGroup_true (l : List Attr)
    (hl : ∀ a ∈ l, a.Value.isEmptyGroup = true) :
    (GroupValue l).isEmptyGroup = true := by
  unfold GroupValue
  rw [filter_nonEmpty_eq_nil l hl]
  rfl

theorem groupHandler_handle_kept {σ : Type} (env : SinkEnv σ) (h : Handler) (name : String)
    (ctx : Context) (record : Record) (w : World σ)
    (hl : ∃ a ∈ record.attrs, a.Value.isEmptyGroup = false) :
    (Handler.groupHandler h name).Handle env ctx record w
      = h.Handle env ctx
          { Time := record.Time, Message := record.Message, Level := record.Level,
            PC := record.PC, attrs := [Attr.mk name (GroupValue record.attrs)] } w := by
  have hg := groupValue_isEmptyGroup_false record.attrs hl
  simp [Handler.Handle, NewRecord, Record.AddAttrs, List.filter_cons, Attr.Value, hg]

theorem groupHandler_handle_dropped {σ : Type} (env : SinkEnv σ) (h : Handler) (name : String)
    (ctx : Context) (record : Record) (w : World σ)
    (hl : ∀ a ∈ record.attrs, a.Value.isEmptyGroup = true) :
    (Handler.groupHandler h name).Handle env ctx record w
      = h.Handle env ctx
          { Time := record.Time, Message := record.Message, Level := record.Level,
            PC := record.PC, attrs := [] } w := by
  have hg := groupValue_isEmptyGroup_true record.attrs hl
  simp [Handler.Handle, NewRecord, Record.AddAttrs, List.filter_cons, Attr.Value, hg]

theorem withGroup_named (h : Handler) (name : String) (hname : name ≠ "") :
    h.WithGroup name = Handler.groupHandler h name := by
  simp [Handler.WithGroup, withGroup, hname]

theorem withAttrs_scalars (h : Handler) (kvs : List (String × Scalar)) (hk : kvs ≠ []) :
    h.WithAttrs (scalarAttrs kvs) = Handler.attrsHandler h (scalarAttrs kvs) := by
  have hex : ∃ a ∈ scalarAttrs kvs, recursivelyEmpty a = false := by
    cases kvs with
    | nil => exact absurd rfl hk
    | cons kv rest => exact ⟨Attr.mk kv.1 (Value.scalar kv.2), by simp [scalarAttrs], rfl⟩
  have hall : ∀ a ∈ scalarAttrs kvs, (!recursivelyEmpty a) = true := by
    intro a ha
    simp only [scalarAttrs, List.mem_map] at ha
    obtain ⟨kv, _, rfl⟩ := ha
    rfl
  rw [Handler.WithAttrs, withAttrs_some_kept h _ hex, List.filter_eq_self.2 hall]

/-- C11, as stated, fails for an event with no attributes: the group built
from them is empty and `AddAttrs` omits it, so `NewHandler(s0).WithGroup("g")`
forwards the event with no attributes at all, not with the single attribute
`g` holding an empty group. -/
theorem withGroup_no_attrs_counterexample :
    ((NewHandler (some 0)).WithGroup "g").Handle exampleEnv 0 bareRecord exampleWorld
        = (NewHandler (some 0)).Handle exampleEnv 0 bareRecord exampleWorld ∧
      ((NewHandler (some 0)).WithGroup "g").Handle exampleEnv 0 bareRecord exampleWorld
        ≠ (NewHandler (some 0)).Handle exampleEnv 0
            { bareRecord with attrs := [Attr.mk "g" (Value.group [])] } exampleWorld := by
  decide

/-- C11, amended: for every handler `h`, every non-empty name and every event,
`WithGroup` adds one group node. When the event has an attribute (one that is
not an empty group, as every attribute of a record is), `Handle` on the result
is `Handle` of `h` on the event with the same time, level, message and program
counter whose only attribute has the name as key and the group of the
attributes of the event, in their order, as value; when it has none, `h` gets
the event with no attributes. The result of `h` is returned as it is. -/
theorem withGroup_handle_wraps {σ : Type} (env : SinkEnv σ) (h : Handler) (name : String)
    (hname : name ≠ "") (ctx : Context) (record : Record) (w : World σ) :
    h.WithGroup name = Handler.groupHandler h name ∧
      ((∃ a ∈ record.attrs, a.Value.isEmptyGroup = false) →
        (h.WithGroup name).Handle env ctx record w
          = h.Handle env ctx
              { Time := record.Time, Message := record.Message, Level := record.Level,
                PC := record.PC, attrs := [Attr.mk name (GroupValue record.attrs)] } w) ∧
      ((∀ a ∈ record.attrs, a.Value.isEmptyGroup = false) →
        GroupValue record.attrs = Value.group record.attrs) ∧
      (record.attrs = [] →
        (h.WithGroup name).Handle env ctx record w
          = h.Handle env ctx
              { Time := record.Time, Message := record.Message, Level := record.Level,
                PC := record.PC, attrs := [] } w) := by
  have h1 := withGroup_named h name hname
  refine ⟨h1, ?_, ?_, ?_⟩
  · intro hl
    rw [h1]
    exact groupHandler_handle_kept env h name ctx record w hl
  · intro hl
    simp only [GroupValue, filter_nonEmpty_eq_self _ hl]
  · intro hl
    rw [h1]
    exact groupHandler_handle_dropped env h name ctx record w (by simp [hl])

theorem withGroup_handle_wraps_witness :
    "g" ≠ "" ∧
      ((NewHandler (some 1)).WithGroup "g" = Handler.groupHandler (NewHandler (some 1)) "g" ∧
        ((∃ a ∈ exampleRecord.attrs, a.Value.isEmptyGroup = false) →
          ((NewHandler (some 1)).WithGroup "g").Handle exampleEnv 0 exampleRecord exampleWorld
            = (NewHandler (some 1)).Handle exampleEnv 0
                { Time := exampleRecord.Time, Message := exampleRecord.Message,
                  Level := exampleRecord.Level, PC := exampleRecord.PC,
                  attrs := [Attr.mk "g" (GroupValue exampleRecord.attrs)] } exampleWorld) ∧
        ((∀ a ∈ exampleRecord.attrs, a.Value.isEmptyGroup = false) →
          GroupValue exampleRecord.attrs = Value.group exampleRecord.attrs) ∧
        (exampleRecord.attrs = [] →
          ((NewHandler (some 1)).WithGroup "g").Handle exampleEnv 0 exampleRecord exampleWorld
            = (NewHandler (some 1)).Handle exampleEnv 0
                { Time := exampleRecord.Time, Message := exampleRecord.Message,
                  Level := exampleRecord.Level, PC := exampleRecord.PC,
                  attrs := [] } exampleWorld)) :=
  ⟨by decide, withGroup_handle_wraps exampleEnv (NewHandler (some 1)) "g" (by decide) 0
    exampleRecord exampleWorld⟩

/-! ## Lemmas on the formatters -/

theorem fmtAppend_eq (b : Buf) (operands : List String) :
    fmtAppend b operands = b ++ operands.flatMap fun s => s.toList := by
  unfold fmtAppend
  induction operands generalizing b with
  | nil => simp
  | cons s rest ih =>
    simp only [List.foldl_cons, List.flatMap_cons]
    rw [ih, List.append_assoc]

theorem appendEscapedRune_append (host : Host) (buf : Buf) (r : Char) :
    appendEscapedRune host buf r = buf ++ appendEscapedRune host [] r := by
  simp [appendEscapedRune]

theorem foldl_appendEscapedRune_append (host : Host) (cs : List Char) (b x : Buf) :
    cs.foldl (appendEscapedRune host) (b ++ x) = b ++ cs.foldl (appendEscapedRune host) x := by
  induction cs generalizing x with
  | nil => rfl
  | cons c rest ih =>
    simp only [List.foldl_cons]
    rw [appendEscapedRune_append host (b ++ x), appendEscapedRune_append host x,
      List.append_assoc, ih]

theorem strconvAppendQuote_append (host : Host) (b : Buf) (s : String) :
    strconvAppendQuote host b s = b ++ strconvAppendQuote host [] s := by
  simp only [strconvAppendQuote, List.nil_append]
  rw [foldl_appendEscapedRune_append, List.append_assoc]

theorem quote_append (host : Host) (b : Buf) (s : String) (q : QuoteType) :
    quote host b s q = b ++ quote host [] s q := by
  unfold quote
  split
  · exact strconvAppendQuote_append host b s
  · simp [fmtAppend_eq]

theorem dottedPath_snoc (path : List String) (key : String) :
    dottedPath (path ++ [key]) = dottedPath path ++ key ++ "." := by
  simp [dottedPath, List.foldl_append]

mutual
theorem formatAttr_leaves (host : Host) (q : QuoteType) (b : Buf) (path : List String) :
    ∀ a : Attr, formatAttr host q b (dottedPath path) a
      = b ++ (scalarLeaves path a).flatMap (leafText host q)
  | .mk key (.scalar v) => by
    simp only [formatAttr, scalarLeaves, List.flatMap_cons, List.flatMap_nil, List.append_nil,
      leafText]
    rw [quote_append, fmtAppend_eq]
    simp [String.toList, String.data_append]
  | .mk key (.group g) => by
    simp only [formatAttr, scalarLeaves]
    rw [← dottedPath_snoc]
    exact formatAttrs_leaves host q b (path ++ [key]) g
theorem formatAttrs_leaves (host : Host) (q : QuoteType) (b : Buf) (path : List String) :
    ∀ l : List Attr, formatAttrs host q b (dottedPath path) l
      = b ++ (scalarLeavesList path l).flatMap (leafText host q)
  | [] => by simp [formatAttrs, scalarLeavesList]
  | a :: rest => by
    simp only [formatAttrs, scalarLeavesList, List.flatMap_append]
    rw [formatAttr_leaves host q b path a,
      formatAttrs_leaves host q (b ++ (scalarLeaves path a).flatMap (leafText host q)) path rest,
      List.append_assoc]
end

theorem textAttrs_append_leaves (host : Host) (q : QuoteType) (b : Buf) (c : Context)
    (r : Record) :
    (Formatter.TextAttrs q).Append host b c r
      = b ++ (scalarLeavesList [] r.attrs).flatMap (leafText host q) := by
  simp only [Formatter.Append]
  exact formatAttrs_leaves host q b [] r.attrs

theorem leafText_head (host : Host) (q : QuoteType) (leaf : List String × String × Scalar) :
    ∃ t, leafText host q leaf = Char.ofNat 0x20 :: t := by
  refine ⟨(dottedPath leaf.1 ++ leaf.2.1 ++ "=").toList ++ quote host [] leaf.2.2.String q, ?_⟩
  simp only [leafText, String.toList, String.data_append, List.append_assoc]
  rfl

theorem flatMap_leafText_head (host : Host) (q : QuoteType)
    (leaves : List (List String × String × Scalar)) :
    leaves.flatMap (leafText host q) = [] ∨
      ∃ t, leaves.flatMap (leafText host q) = Char.ofNat 0x20 :: t := by
  cases leaves with
  | nil => exact Or.inl rfl
  | cons leaf rest =>
    obtain ⟨t, ht⟩ := leafText_head host q leaf
    exact Or.inr ⟨t ++ rest.flatMap (leafText host q), by simp [List.flatMap_cons, ht]⟩

theorem quote_never (host : Host) (b : Buf) (s : String) :
    quote host b s QuoteNever = b ++ s.toList := by
  simp [quote, needsQuoting, fmtAppend_eq]

/-- C12: for all non-empty group names `g` and `h` and every event whose
attributes are one scalar attribute `v=w`, the handler
`NewHandler(sink).WithGroup(g).WithGroup(h)` hands to the sink the event with
the attributes `[g: group[h: group[v=w]]]`, and `TextAttrs` renders that event
as a space, `g.h.v=` and the value `w` quoted per the policy, which is
` g.h.v=w` itself when the policy does not quote. -/
theorem nested_groups_flatten {σ : Type} (env : SinkEnv σ) (host : Host) (sink : Sink)
    (g h : String) (hg : g ≠ "") (hh : h ≠ "") (v : String) (w : Scalar) (q : QuoteType)
    (ctx : Context) (t : Nat) (msg : String) (level : Level) (pc : Nat) (world : World σ) :
    (((NewHandler sink).WithGroup g).WithGroup h).Handle env ctx
        { Time := t, Message := msg, Level := level, PC := pc,
          attrs := [Attr.mk v (Value.scalar w)] } world
      = sink.Handle env ctx
          { Time := t, Message := msg, Level := level, PC := pc,
            attrs := [Attr.mk g (Value.group [Attr.mk h (Value.group
              [Attr.mk v (Value.scalar w)])])] } world ∧
    (Formatter.TextAttrs q).Append host [] ctx
        { Time := t, Message := msg, Level := level, PC := pc,
          attrs := [Attr.mk g (Value.group [Attr.mk h (Value.group
            [Attr.mk v (Value.scalar w)])])] }
      = (" " ++ g ++ "." ++ h ++ "." ++ v ++ "=").toList ++ quote host [] w.String q ∧
    (Formatter.TextAttrs QuoteNever).Append host [] ctx
        { Time := t, Message := msg, Level := level, PC := pc,
          attrs := [Attr.mk g (Value.group [Attr.mk h (Value.group
            [Attr.mk v (Value.scalar w)])])] }
      = (" " ++ g ++ "." ++ h ++ "." ++ v ++ "=" ++ w.String).toList := by
  have hflat : ∀ q : QuoteType, (Formatter.TextAttrs q).Append host [] ctx
        { Time := t, Message := msg, Level := level, PC := pc,
          attrs := [Attr.mk g (Value.group [Attr.mk h (Value.group
            [Attr.mk v (Value.scalar w)])])] }
      = (" " ++ g ++ "." ++ h ++ "." ++ v ++ "=").toList ++ quote host [] w.String q := by
    intro q
    rw [textAttrs_append_leaves]
    simp [scalarLeavesList, scalarLeaves, leafText, dottedPath, String.toList,
      String.data_append]
  refine ⟨?_, hflat q, ?_⟩
  · rw [withGroup_named _ g hg, withGroup_named _ h hh]
    rw [groupHandler_handle_kept env _ h ctx _ world
      ⟨Attr.mk v (Value.scalar w), List.mem_singleton.2 rfl, rfl⟩]
    rw [groupHandler_handle_kept env _ g ctx _ world
      ⟨Attr.mk h (GroupValue [Attr.mk v (Value.scalar w)]), List.mem_singleton.2 rfl, rfl⟩]
    simp only [NewHandler, Handler.Handle, GroupValue]
    rfl
  · rw [hflat QuoteNever, quote_never]
    simp [String.toList, String.data_append]

theorem nested_groups_flatten_witness :
    "g" ≠ "" ∧ "h" ≠ "" ∧
    ((((NewHandler (some 1)).WithGroup "g").WithGroup "h").Handle exampleEnv 0
        { Time := 7, Message := "msg", Level := 0, PC := 0,
          attrs := [Attr.mk "v" (Value.scalar (Scalar.string "w"))] } exampleWorld
      = Sink.Handle exampleEnv (some 1) 0
          { Time := 7, Message := "msg", Level := 0, PC := 0,
            attrs := [Attr.mk "g" (Value.group [Attr.mk "h" (Value.group
              [Attr.mk "v" (Value.scalar (Scalar.string "w"))])])] } exampleWorld ∧
    (Formatter.TextAttrs QuoteSmart).Append exampleHost [] 0
        { Time := 7, Message := "msg", Level := 0, PC := 0,
          attrs := [Attr.mk "g" (Value.group [Attr.mk "h" (Value.group
            [Attr.mk "v" (Value.scalar (Scalar.string "w"))])])] }
      = (" " ++ "g" ++ "." ++ "h" ++ "." ++ "v" ++ "=").toList ++
          quote exampleHost [] (Scalar.string "w").String QuoteSmart ∧
    (Formatter.TextAttrs QuoteNever).Append exampleHost [] 0
        { Time := 7, Message := "msg", Level := 0, PC := 0,
          attrs := [Attr.mk "g" (Value.group [Attr.mk "h" (Value.group
            [Attr.mk "v" (Value.scalar (Scalar.string "w"))])])] }
      = (" " ++ "g" ++ "." ++ "h" ++ "." ++ "v" ++ "=" ++ (Scalar.string "w").String).toList) :=
  ⟨by decide, by decide,
    nested_groups_flatten exampleEnv exampleHost (some 1) "g" "h" (by decide) (by decide) "v"
      (Scalar.string "w") QuoteSmart 0 7 "msg" 0 0 exampleWorld⟩

/-- C13, as stated, fails in its second half for an event with no attributes:
`NewHandler(s0).WithAttrs([x=y]).WithGroup("g")` hands `[x=y]` to the sink, not
`[g: group[]]` followed by `x=y`, because the empty group is omitted. -/
theorem attrs_then_group_counterexample :
    (((NewHandler (some 0)).WithAttrs (scalarAttrs oneScalar)).WithGroup "g").Handle
        exampleEnv 0 bareRecord exampleWorld
      = Sink.Handle exampleEnv (some 0) 0
          { bareRecord with attrs := scalarAttrs oneScalar } exampleWorld ∧
    (((NewHandler (some 0)).WithAttrs (scalarAttrs oneScalar)).WithGroup "g").Handle
        exampleEnv 0 bareRecord exampleWorld
      ≠ Sink.Handle exampleEnv (some 0) 0
          { bareRecord with
            attrs := [Attr.mk "g" (Value.group [])] ++ scalarAttrs oneScalar }
          exampleWorld := by
  decide

/-- C13, amended: for every non-empty name `g`, every non-empty list `A` of
scalar attributes and every event with attributes `E`,
`NewHandler(sink).WithGroup(g).WithAttrs(A)` hands to the sink the event with
the one attribute `g: group(E ++ A)`; `NewHandler(sink).WithAttrs(A).WithGroup(g)`
hands it `[g: group(E)] ++ A` when `E` has an attribute (one that is not an
empty group, as every attribute of a record is), and `A` alone when `E` is
empty. -/
theorem group_attrs_composition {σ : Type} (env : SinkEnv σ) (sink : Sink) (g : String)
    (hg : g ≠ "") (A : List (String × Scalar)) (hA : A ≠ [])
    (ctx : Context) (record : Record) (w : World σ) :
    (((NewHandler sink).WithGroup g).WithAttrs (scalarAttrs A)).Handle env ctx record w
      = sink.Handle env ctx
          { Time := record.Time, Message := record.Message, Level := record.Level,
            PC := record.PC,
            attrs := [Attr.mk g (GroupValue (record.attrs ++ scalarAttrs A))] } w ∧
    ((∃ a ∈ record.attrs, a.Value.isEmptyGroup = false) →
      (((NewHandler sink).WithAttrs (scalarAttrs A)).WithGroup g).Handle env ctx record w
        = sink.Handle env ctx
            { Time := record.Time, Message := record.Message, Level := record.Level,
              PC := record.PC,
              attrs := [Attr.mk g (GroupValue record.attrs)] ++ scalarAttrs A } w) ∧
    ((∀ a ∈ record.attrs, a.Value.isEmptyGroup = false) →
      GroupValue (record.attrs ++ scalarAttrs A) = Value.group (record.attrs ++ scalarAttrs A) ∧
      GroupValue record.attrs = Value.group record.attrs) ∧
    (record.attrs = [] →
      (((NewHandler sink).WithAttrs (scalarAttrs A)).WithGroup g).Handle env ctx record w
        = sink.Handle env ctx
            { Time := record.Time, Message := record.Message, Level := record.Level,
              PC := record.PC, attrs := scalarAttrs A } w) := by
  have hkeep := filter_nonEmpty_eq_self (scalarAttrs A) (scalarAttrs_not_empty_group A)
  have hex : ∃ a ∈ scalarAttrs A, a.Value.isEmptyGroup = false := by
    cases A with
    | nil => exact absurd rfl hA
    | cons kv rest => exact ⟨Attr.mk kv.1 (Value.scalar kv.2), by simp [scalarAttrs], rfl⟩
  refine ⟨?_, ?_, ?_, ?_⟩
  · rw [withGroup_named _ g hg, withAttrs_scalars _ A hA]
    simp only [Handler.Handle]
    have hex2 : ∃ a ∈ (record.AddAttrs (scalarAttrs A)).attrs, a.Value.isEmptyGroup = false := by
      obtain ⟨a, ha, hne⟩ := hex
      exact ⟨a, by simp [Record.AddAttrs, hkeep, ha], hne⟩
    have := groupHandler_handle_kept env (NewHandler sink) g ctx
      (record.AddAttrs (scalarAttrs A)) w hex2
    simp only [Handler.Handle] at this
    rw [this]
    simp only [NewHandler, Handler.Handle, Record.AddAttrs, hkeep]
  · intro hl
    rw [withAttrs_scalars _ A hA, withGroup_named _ g hg]
    rw [groupHandler_handle_kept env _ g ctx record w hl]
    have hgv := groupValue_isEmptyGroup_false record.attrs hl
    simp only [NewHandler, Handler.Handle, Record.AddAttrs, hkeep]
  · intro hl
    constructor
    · simp only [GroupValue]
      rw [filter_nonEmpty_eq_self]
      intro a ha
      rcases List.mem_append.1 ha with h1 | h1
      · exact hl a h1
      · exact scalarAttrs_not_empty_group A a h1
    · simp only [GroupValue, filter_nonEmpty_eq_self _ hl]
  · intro hl
    rw [withAttrs_scalars _ A hA, withGroup_named _ g hg]
    rw [groupHandler_handle_dropped env _ g ctx record w (by simp [hl])]
    simp only [NewHandler, Handler.Handle, Record.AddAttrs, hkeep, List.nil_append]

theorem group_attrs_composition_witness :
    "g" ≠ "" ∧ oneScalar ≠ [] ∧
    ((((NewHandler (some 1)).WithGroup "g").WithAttrs (scalarAttrs oneScalar)).Handle
        exampleEnv 0 exampleRecord exampleWorld
      = Sink.Handle exampleEnv (some 1) 0
          { Time := exampleRecord.Time, Message := exampleRecord.Message,
            Level := exampleRecord.Level, PC := exampleRecord.PC,
            attrs := [Attr.mk "g" (GroupValue (exampleRecord.attrs ++ scalarAttrs oneScalar))] }
          exampleWorld ∧
    ((∃ a ∈ exampleRecord.attrs, a.Value.isEmptyGroup = false) →
      (((NewHandler (some 1)).WithAttrs (scalarAttrs oneScalar)).WithGroup "g").Handle
          exampleEnv 0 exampleRecord exampleWorld
        = Sink.Handle exampleEnv (some 1) 0
            { Time := exampleRecord.Time, Message := exampleRecord.Message,
              Level := exampleRecord.Level, PC := exampleRecord.PC,
              attrs := [Attr.mk "g" (GroupValue exampleRecord.attrs)] ++ scalarAttrs oneScalar }
            exampleWorld) ∧
    ((∀ a ∈ exampleRecord.attrs, a.Value.isEmptyGroup = false) →
      GroupValue (exampleRecord.attrs ++ scalarAttrs oneScalar)
        = Value.group (exampleRecord.attrs ++ scalarAttrs oneScalar) ∧
      GroupValue exampleRecord.attrs = Value.group exampleRecord.attrs) ∧
    (exampleRecord.attrs = [] →
      (((NewHandler (some 1)).WithAttrs (scalarAttrs oneScalar)).WithGroup "g").Handle
          exampleEnv 0 exampleRecord exampleWorld
        = Sink.Handle exampleEnv (some 1) 0
            { Time := exampleRecord.Time, Message := exampleRecord.Message,
              Level := exampleRecord.Level, PC := exampleRecord.PC,
              attrs := scalarAttrs oneScalar } exampleWorld)) :=
  ⟨by decide, by decide,
    group_attrs_composition exampleEnv (some 1) "g" (by decide) oneScalar (by decide) 0
      exampleRecord exampleWorld⟩

theorem withAttrs_enabled {σ : Type} (env : SinkEnv σ) (h : Handler) (list : List Attr)
    (ctx : Context) (level : Level) :
    (h.WithAttrs list).Enabled env ctx level = h.Enabled env ctx level := by
  simp only [Handler.WithAttrs, withAttrs]
  split
  · rfl
  · rfl

theorem withGroup_enabled {σ : Type} (env : SinkEnv σ) (h : Handler) (name : String)
    (ctx : Context) (level : Level) :
    (h.WithGroup name).Enabled env ctx level = h.Enabled env ctx level := by
  simp only [Handler.WithGroup, withGroup]
  split
  · rfl
  · rfl

theorem derive_enabled {σ : Type} (env : SinkEnv σ) (ops : List Derivation) (h : Handler)
    (ctx : Context) (level : Level) :
    (h.derive ops).Enabled env ctx level = h.Enabled env ctx level := by
  induction ops generalizing h with
  | nil => rfl
  | cons op rest ih =>
    cases op with
    | attrs list => simp only [Handler.derive, ih, withAttrs_enabled]
    | group name => simp only [Handler.derive, ih, withGroup_enabled]

/-- C14: for every sink, every handler obtained from `NewHandler(sink)` by a
finite sequence of `WithAttrs` and `WithGroup` calls, and every level,
`Enabled` of the handler is `Enabled` of the sink. -/
theorem handler_enabled_delegates {σ : Type} (env : SinkEnv σ) (sink : Sink)
    (ops : List Derivation) (ctx : Context) (level : Level) :
    ((NewHandler sink).derive ops).Enabled env ctx level = sink.Enabled env ctx level ∧
      ∀ s : SinkRef, ((NewHandler (some s)).derive ops).Enabled env ctx level
        = some (env.enabled s ctx level) := by
  refine ⟨?_, ?_⟩
  · rw [derive_enabled]
    rfl
  · intro s
    rw [derive_enabled]
    rfl

theorem formatAttrs_append (host : Host) (q : QuoteType) (pfx : String) (l1 l2 : List Attr)
    (b : Buf) :
    formatAttrs host q b pfx (l1 ++ l2) = formatAttrs host q (formatAttrs host q b pfx l1) pfx l2 := by
  induction l1 generalizing b with
  | nil => rfl
  | cons a rest ih =>
    simp only [List.cons_append, formatAttrs]
    exact ih _

mutual
theorem formatAttr_recursivelyEmpty (host : Host) (q : QuoteType) :
    ∀ (a : Attr) (b : Buf) (pfx : String), recursivelyEmpty a = true →
      formatAttr host q b pfx a = b
  | .mk _ (.scalar _), _, _, h => by simp [recursivelyEmpty] at h
  | .mk key (.group g), b, pfx, h => by
    simp only [recursivelyEmpty] at h
    simp only [formatAttr]
    exact formatAttrs_recursivelyEmpty host q g b (pfx ++ key ++ ".") h
theorem formatAttrs_recursivelyEmpty (host : Host) (q : QuoteType) :
    ∀ (l : List Attr) (b : Buf) (pfx : String), allRecursivelyEmpty l = true →
      formatAttrs host q b pfx l = b
  | [], _, _, _ => rfl
  | a :: rest, b, pfx, h => by
    simp only [allRecursivelyEmpty, Bool.and_eq_true] at h
    simp only [formatAttrs]
    rw [formatAttr_recursivelyEmpty host q a b pfx h.1]
    exact formatAttrs_recursivelyEmpty host q rest b pfx h.2
end

theorem formatAttrs_filter (host : Host) (q : QuoteType) (pfx : String) (l : List Attr)
    (b : Buf) :
    formatAttrs host q b pfx (l.filter fun a => !isEmptyGroup a) = formatAttrs host q b pfx l := by
  induction l generalizing b with
  | nil => rfl
  | cons a rest ih =>
    cases ha : isEmptyGroup a
    · simp only [List.filter_cons, ha, Bool.not_false, if_true, formatAttrs, ih]
    · have hr : recursivelyEmpty a = true := by rw [← isEmptyGroup_eq_recursivelyEmpty, ha]
      simp only [List.filter_cons, ha, Bool.not_true, Bool.false_eq_true, if_false, formatAttrs,
        formatAttr_recursivelyEmpty host q a b pfx hr, ih]

/-! ## The flattened attributes and the quoting policy -/

/-- C15: for every event and quoting policy, `TextAttrs.Append` returns the
buffer followed by, for each scalar leaf of the attribute tree in depth-first
insertion order, a space, the dotted path of the enclosing group keys, the key
of the leaf, an equal sign and the value quoted per the policy; for an event
with no attributes nothing is appended, and what is appended is empty or
begins with a space. -/
theorem textAttrs_append_flattens (host : Host) (q : QuoteType) (b : Buf) (c : Context)
    (r : Record) :
    (Formatter.TextAttrs q).Append host b c r
        = b ++ (scalarLeavesList [] r.attrs).flatMap (leafText host q) ∧
      (∀ leaf, leafText host q leaf
        = (" " ++ dottedPath leaf.1 ++ leaf.2.1 ++ "=").toList ++
            quote host [] leaf.2.2.String q) ∧
      (r.attrs = [] → (Formatter.TextAttrs q).Append host b c r = b) ∧
      (r.attrs = [] → (Formatter.TextAttrs q).Append host [] c r = []) ∧
      ((Formatter.TextAttrs q).Append host [] c r = [] ∨
        ∃ t, (Formatter.TextAttrs q).Append host [] c r = Char.ofNat 0x20 :: t) := by
  have h1 := textAttrs_append_leaves host q
  refine ⟨h1 b c r, fun _ => rfl, ?_, ?_, ?_⟩
  · intro he
    rw [h1, he]
    simp [scalarLeavesList]
  · intro he
    rw [h1, he]
    simp [scalarLeavesList]
  · rw [h1, List.nil_append]
    exact flatMap_leafText_head host q _

/-- C16: for every attribute for which `isEmptyGroup` is true, that is, every
group whose members are all recursively empty groups, `formatAttr` appends
nothing under every buffer, prefix and quoting policy, and the output of
`TextAttrs` for an event is the same with the attribute inserted anywhere among
the attributes of the event as without it, and the same after all such
attributes are stripped. -/
theorem empty_group_renders_nothing (host : Host) (q : QuoteType) (a : Attr)
    (ha : isEmptyGroup a = true) :
    recursivelyEmpty a = true ∧
      (∀ (b : Buf) (pfx : String), formatAttr host q b pfx a = b) ∧
      (∀ (b : Buf) (c : Context) (t : Nat) (msg : String) (level : Level) (pc : Nat)
          (before after : List Attr),
        (Formatter.TextAttrs q).Append host b c
            { Time := t, Message := msg, Level := level, PC := pc,
              attrs := before ++ a :: after }
          = (Formatter.TextAttrs q).Append host b c
              { Time := t, Message := msg, Level := level, PC := pc,
                attrs := before ++ after }) ∧
      (∀ (b : Buf) (c : Context) (r : Record),
        (Formatter.TextAttrs q).Append host b c
            { r with attrs := r.attrs.filter fun x => !isEmptyGroup x }
          = (Formatter.TextAttrs q).Append host b c r) := by
  have hr : recursivelyEmpty a = true := by rw [← isEmptyGroup_eq_recursivelyEmpty, ha]
  refine ⟨hr, ?_, ?_, ?_⟩
  · intro b pfx
    exact formatAttr_recursivelyEmpty host q a b pfx hr
  · intro b c t msg level pc before after
    simp only [Formatter.Append, formatAttrs_append, formatAttrs,
      formatAttr_recursivelyEmpty host q a _ _ hr]
  · intro b c r
    simp only [Formatter.Append]
    exact formatAttrs_filter host q "" r.attrs b

theorem empty_group_renders_nothing_witness :
    isEmptyGroup (Attr.mk "k" (Value.group [Attr.mk "g" (Value.group [])])) = true ∧
    (recursivelyEmpty (Attr.mk "k" (Value.group [Attr.mk "g" (Value.group [])])) = true ∧
      (∀ (b : Buf) (pfx : String),
        formatAttr exampleHost QuoteSmart b pfx
          (Attr.mk "k" (Value.group [Attr.mk "g" (Value.group [])])) = b) ∧
      (∀ (b : Buf) (c : Context) (t : Nat) (msg : String) (level : Level) (pc : Nat)
          (before after : List Attr),
        (Formatter.TextAttrs QuoteSmart).Append exampleHost b c
            { Time := t, Message := msg, Level := level, PC := pc,
              attrs := before ++
                Attr.mk "k" (Value.group [Attr.mk "g" (Value.group [])]) :: after }
          = (Formatter.TextAttrs QuoteSmart).Append exampleHost b c
              { Time := t, Message := msg, Level := level, PC := pc,
                attrs := before ++ after }) ∧
      (∀ (b : Buf) (c : Context) (r : Record),
        (Formatter.TextAttrs QuoteSmart).Append exampleHost b c
            { r with attrs := r.attrs.filter fun x => !isEmptyGroup x }
          = (Formatter.TextAttrs QuoteSmart).Append exampleHost b c r)) :=
  ⟨by decide, empty_group_renders_nothing exampleHost QuoteSmart
    (Attr.mk "k" (Value.group [Attr.mk "g" (Value.group [])])) (by decide)⟩

theorem foldl_appendEscapedRune_flatMap (host : Host) (cs : List Char) (x : Buf) :
    cs.foldl (appendEscapedRune host) x = x ++ cs.flatMap (escapedRune host) := by
  induction cs generalizing x with
  | nil => simp
  | cons c rest ih => simp [List.foldl_cons, ih, appendEscapedRune, List.flatMap_cons]

/-- C17: for every string `s`, under the never policy `s` is appended as it
is; under the always policy it is appended quoted by `strconv.AppendQuote`,
that is, between double quotes with each character escaped; under the smart
policy it is quoted if and only if it is empty or contains an equal sign or a
space character (in the sense of `unicode.IsSpace`, the plain space among
them), and appended as it is otherwise. The empty string renders as two double
quotes, `b = c` is quoted and `bcd` is not. -/
theorem quote_follows_policy (host : Host) (b : Buf) (s : String) :
    quote host b s QuoteNever = b ++ s.toList ∧
    quote host b s QuoteAlways = strconvAppendQuote host b s ∧
    strconvAppendQuote host b s
      = b ++ [Char.ofNat 0x22] ++ s.toList.flatMap (escapedRune host) ++ [Char.ofNat 0x22] ∧
    (needsQuoting s QuoteSmart = true ↔
      (s = "" ∨ ∃ c ∈ s.toList, c = Char.ofNat 0x3D ∨ unicodeIsSpace c = true)) ∧
    (needsQuoting s QuoteSmart = true → quote host b s QuoteSmart = strconvAppendQuote host b s) ∧
    (needsQuoting s QuoteSmart = false → quote host b s QuoteSmart = b ++ s.toList) ∧
    unicodeIsSpace (Char.ofNat 0x20) = true ∧
    quote host [] "" QuoteSmart = [Char.ofNat 0x22, Char.ofNat 0x22] ∧
    needsQuoting "b = c" QuoteSmart = true ∧
    needsQuoting "bcd" QuoteSmart = false := by
  refine ⟨quote_never host b s, ?_, ?_, ?_, ?_, ?_, by decide, ?_, by decide, by decide⟩
  · simp [quote, needsQuoting, QuoteAlways, QuoteNever]
  · simp only [strconvAppendQuote, foldl_appendEscapedRune_flatMap]
  · by_cases hs : s = ""
    · simp [needsQuoting, QuoteSmart, QuoteNever, QuoteAlways, hs]
    · simp [needsQuoting, QuoteSmart, QuoteNever, QuoteAlways, hs]
  · intro hq
    simp [quote, hq]
  · intro hq
    simp [quote, hq, fmtAppend_eq]
  · rfl

/-! ## Lemmas on `fmt.Appendf` and the composite formatters -/

theorem doPrintf_literal (host : Host) (lit rest : List Char) (args : List Buf)
    (hl : Char.ofNat 0x25 ∉ lit) :
    doPrintf host (lit ++ rest) args = lit ++ doPrintf host rest args := by
  induction lit with
  | nil => rfl
  | cons c more ih =>
    have hc : ¬ c = Char.ofNat 0x25 := fun e => hl (by simp [e])
    have hm : Char.ofNat 0x25 ∉ more := fun e => hl (List.mem_cons_of_mem _ e)
    rw [List.cons_append, doPrintf.eq_def]
    simp only [hc, if_false, ih hm, List.cons_append]

theorem doPrintf_placeholder (host : Host) (rest : List Char) (a : Buf) (args : List Buf) :
    doPrintf host (Char.ofNat 0x25 :: Char.ofNat 0x73 :: rest) (a :: args)
      = a ++ doPrintf host rest args := by
  simp [doPrintf]

theorem doPrintf_template (host : Host) (segs pieces : List Buf)
    (hlen : pieces.length = segs.length) (hs : ∀ l ∈ segs, Char.ofNat 0x25 ∉ l) :
    doPrintf host (segs.flatMap fun l => [Char.ofNat 0x25, Char.ofNat 0x73] ++ l) pieces
      = (List.zipWith (fun p l => p ++ l) pieces segs).flatten := by
  induction segs generalizing pieces with
  | nil =>
    cases pieces with
    | nil => simp [doPrintf, fmtExtra]
    | cons p ps => simp at hlen
  | cons l rest ih =>
    cases pieces with
    | nil => simp at hlen
    | cons p ps =>
      have hl : Char.ofNat 0x25 ∉ l := hs l (List.mem_cons_self _ _)
      have hrest : ∀ x ∈ rest, Char.ofNat 0x25 ∉ x := fun x hx => hs x (List.mem_cons_of_mem _ hx)
      have hlen2 : ps.length = rest.length := by simpa using hlen
      simp only [List.flatMap_cons, List.cons_append, List.nil_append, List.append_assoc,
        List.zipWith_cons_cons, List.flatten_cons]
      have ih2 := ih ps hlen2 hrest
      simp only [List.cons_append, List.nil_append] at ih2
      rw [doPrintf_placeholder, doPrintf_literal host l _ ps hl, ih2]

theorem fmtAppendf_template (host : Host) (b lit0 : Buf) (segs pieces : List Buf)
    (hlen : pieces.length = segs.length) (h0 : Char.ofNat 0x25 ∉ lit0)
    (hs : ∀ l ∈ segs, Char.ofNat 0x25 ∉ l) :
    fmtAppendf host b (String.mk (templateText lit0 segs)) pieces
      = b ++ templateFilled lit0 pieces segs := by
  simp only [fmtAppendf, String.toList, templateText, templateFilled]
  rw [doPrintf_literal host lit0 _ pieces h0, doPrintf_template host segs pieces hlen hs]

theorem appendArgs_contract (host : Host) (args : List Formatter)
    (hc : ∀ f ∈ args, f.Appends host) (tmp : Buf) (c : Context) (r : Record) :
    Formatter.appendArgs host args tmp c r = args.map fun f => f.Append host [] c r := by
  induction args generalizing tmp with
  | nil => rfl
  | cons f rest ih =>
    have hf := hc f (List.mem_cons_self _ _)
    have hrest : ∀ g ∈ rest, g.Appends host := fun g hg => hc g (List.mem_cons_of_mem _ hg)
    simp only [Formatter.appendArgs, List.map_cons]
    rw [ih hrest, hf tmp c r, List.drop_left]

theorem Formatter.appends_builtin (host : Host) (f : Formatter)
    (hf : ∀ g, f ≠ Formatter.custom g) : f.Appends host := by
  intro b c r
  cases f with
  | Layout format args => simp [Formatter.Append, fmtAppendf]
  | Time layout =>
    simp only [Formatter.Append]
    split <;> simp
  | Level => simp [Formatter.Append, fmtAppend_eq]
  | Source short =>
    simp only [Formatter.Append]
    split
    · simp
    · simp [fmtAppend_eq]
  | Message q =>
    simp only [Formatter.Append]
    exact quote_append host b r.Message q
  | TextAttrs q => rw [textAttrs_append_leaves, textAttrs_append_leaves, List.nil_append]
  | Conditional format inner =>
    simp only [Formatter.Append]
    split <;> simp [fmtAppendf]
  | custom g => exact absurd rfl (hf g)

theorem testFormatter_appends (host : Host) (str : String) :
    (testFormatter str).Appends host := by
  intro b c r
  simp [testFormatter, Formatter.Append, fmtAppend_eq]

theorem layout_template (host : Host) (lit0 : Buf) (segs : List Buf)
    (args : List Formatter) (hlen : args.length = segs.length)
    (h0 : Char.ofNat 0x25 ∉ lit0) (hs : ∀ l ∈ segs, Char.ofNat 0x25 ∉ l)
    (hc : ∀ f ∈ args, f.Appends host) (b : Buf) (c : Context) (r : Record) :
    (Formatter.Layout (String.mk (templateText lit0 segs)) args).Append host b c r
      = b ++ templateFilled lit0 (args.map fun f => f.Append host [] c r) segs := by
  simp only [Formatter.Append, appendArgs_contract host args hc [] c r]
  exact fmtAppendf_template host b lit0 segs _ (by simpa using hlen) h0 hs

/-! ## The composite formatters -/

/-- C18: for every template made of a text, one `%s` and a text, neither text
holding a percent sign, every inner formatter and every event,
`Conditional.Append` returns the buffer unchanged when the inner formatter
renders the empty string, and otherwise the buffer followed by the template
with its placeholder replaced by the rendering of the inner formatter. -/
theorem conditional_append_wraps (host : Host) (pre post : Buf)
    (hpre : Char.ofNat 0x25 ∉ pre) (hpost : Char.ofNat 0x25 ∉ post) (inner : Formatter)
    (b : Buf) (c : Context) (r : Record) :
    (inner.Append host [] c r = [] →
      (Formatter.Conditional (String.mk (pre ++ [Char.ofNat 0x25, Char.ofNat 0x73] ++ post))
        inner).Append host b c r = b) ∧
    (inner.Append host [] c r ≠ [] →
      (Formatter.Conditional (String.mk (pre ++ [Char.ofNat 0x25, Char.ofNat 0x73] ++ post))
        inner).Append host b c r = b ++ pre ++ inner.Append host [] c r ++ post) := by
  constructor
  · intro he
    simp [Formatter.Append, he]
  · intro hne
    have hlen : (inner.Append host [] c r).length ≠ 0 := by
      intro e
      exact hne (List.length_eq_zero.1 e)
    have h := fmtAppendf_template host b pre [post] [inner.Append host [] c r] rfl hpre
      (by simpa using hpost)
    simp only [templateText, templateFilled, List.flatMap_cons, List.flatMap_nil,
      List.append_nil, List.zipWith_cons_cons, List.zipWith_nil_right, List.flatten_cons,
      List.flatten_nil] at h
    simp only [Formatter.Append, hlen, ne_eq, not_false_eq_true, if_true]
    rw [List.append_assoc pre, h]
    simp

theorem conditional_append_wraps_witness :
    Char.ofNat 0x25 ∉ "a".toList ∧ Char.ofNat 0x25 ∉ "b".toList ∧
    (((testFormatter "c").Append exampleHost [] 0 bareRecord = [] →
      (Formatter.Conditional
          (String.mk ("a".toList ++ [Char.ofNat 0x25, Char.ofNat 0x73] ++ "b".toList))
          (testFormatter "c")).Append exampleHost "x".toList 0 bareRecord = "x".toList) ∧
    ((testFormatter "c").Append exampleHost [] 0 bareRecord ≠ [] →
      (Formatter.Conditional
          (String.mk ("a".toList ++ [Char.ofNat 0x25, Char.ofNat 0x73] ++ "b".toList))
          (testFormatter "c")).Append exampleHost "x".toList 0 bareRecord
        = "x".toList ++ "a".toList ++ (testFormatter "c").Append exampleHost [] 0 bareRecord
            ++ "b".toList)) :=
  ⟨by decide, by decide,
    conditional_append_wraps exampleHost "a".toList "b".toList (by decide) (by decide)
      (testFormatter "c") "x".toList 0 bareRecord⟩

/-- C19: for every `Layout` whose template has exactly as many `%s`
placeholders as it has child formatters and no other percent sign, the
children keeping the contract of `Append`, and every event, the operands
computed from the shared temporary buffer are, in order, each child's own
rendering of the event, and `Layout.Append` returns the buffer followed by the
template with its placeholders replaced by them in order. -/
theorem layout_append_substitutes (host : Host) (lit0 : Buf) (segs : List Buf)
    (args : List Formatter) (hlen : args.length = segs.length)
    (h0 : Char.ofNat 0x25 ∉ lit0) (hs : ∀ l ∈ segs, Char.ofNat 0x25 ∉ l)
    (hc : ∀ f ∈ args, f.Appends host) (b : Buf) (c : Context) (r : Record) :
    Formatter.appendArgs host args [] c r = args.map (fun f => f.Append host [] c r) ∧
      (Formatter.Layout (String.mk (templateText lit0 segs)) args).Append host b c r
        = b ++ templateFilled lit0 (args.map fun f => f.Append host [] c r) segs := by
  exact ⟨appendArgs_contract host args hc [] c r,
    layout_template host lit0 segs args hlen h0 hs hc b c r⟩

theorem layout_append_substitutes_witness :
    [testFormatter "a", testFormatter "b", testFormatter "c"].length
        = [" ".toList, " ".toList, "".toList].length ∧
    Char.ofNat 0x25 ∉ "".toList ∧
    (∀ l ∈ [" ".toList, " ".toList, "".toList], Char.ofNat 0x25 ∉ l) ∧
    (∀ f ∈ [testFormatter "a", testFormatter "b", testFormatter "c"],
      f.Appends exampleHost) ∧
    (Formatter.appendArgs exampleHost
          [testFormatter "a", testFormatter "b", testFormatter "c"] [] 0 bareRecord
        = [testFormatter "a", testFormatter "b", testFormatter "c"].map
            (fun f => f.Append exampleHost [] 0 bareRecord) ∧
      (Formatter.Layout (String.mk (templateText "".toList [" ".toList, " ".toList, "".toList]))
          [testFormatter "a", testFormatter "b", testFormatter "c"]).Append
            exampleHost [] 0 bareRecord
        = [] ++ templateFilled "".toList
            ([testFormatter "a", testFormatter "b", testFormatter "c"].map
              fun f => f.Append exampleHost [] 0 bareRecord)
            [" ".toList, " ".toList, "".toList]) :=
  ⟨by decide, by decide, by decide,
    by
      intro f hf
      simp only [List.mem_cons, List.mem_singleton, List.not_mem_nil, or_false] at hf
      rcases hf with rfl | rfl | rfl <;> exact testFormatter_appends exampleHost _,
    layout_append_substitutes exampleHost "".toList [" ".toList, " ".toList, "".toList]
      [testFormatter "a", testFormatter "b", testFormatter "c"] (by decide) (by decide)
      (by decide)
      (by
        intro f hf
        simp only [List.mem_cons, List.mem_singleton, List.not_mem_nil, or_false] at hf
        rcases hf with rfl | rfl | rfl <;> exact testFormatter_appends exampleHost _)
      [] 0 bareRecord⟩

theorem defaultFormat_append (host : Host) (b : Buf) (c : Context) (r : Record) :
    DefaultFormat.Append host b c r
      = b ++ ((host.timeFormat r.Time "2006-01-02 15:04:05").toList ++ " ".toList ++
          (levelString r.Level).toList ++ " ".toList ++ r.Message.toList ++
          (scalarLeavesList [] r.attrs).flatMap (leafText host QuoteSmart)) := by
  have hc : ∀ f ∈ [Formatter.Time "", Formatter.Level, Formatter.Message QuoteNever,
      Formatter.TextAttrs QuoteSmart], f.Appends host := by
    intro f hf
    simp only [List.mem_cons, List.mem_singleton, List.not_mem_nil, or_false] at hf
    rcases hf with rfl | rfl | rfl | rfl <;>
      exact Formatter.appends_builtin host _ (by intro g h; cases h)
  have h := (layout_template host [] [" ".toList, " ".toList, [], []] _ rfl (by simp)
    (by decide) hc b c r)
  have ht : String.mk (templateText [] [" ".toList, " ".toList, [], []]) = "%s %s %s%s" := by
    decide
  rw [ht] at h
  simp only [DefaultFormat, defaultFormat]
  rw [h]
  simp only [templateFilled, List.map_cons, List.map_nil, List.zipWith_cons_cons,
    List.zipWith_nil_right, List.flatten_cons, List.flatten_nil, List.nil_append,
    List.append_nil, List.append_assoc]
  rw [textAttrs_append_leaves]
  simp [Formatter.Append, fmtAppend_eq, quote_never]

/-! ## End to end: a writer sink with the default format -/

/-- C20: for a writer sink with the minimum level INFO and `DefaultFormat()`
and every event, the sink is enabled exactly at the levels from INFO up, and
`Handle` issues one write whose bytes are the time, a space, the level name, a
space, the message as it is, the flattened attributes (for each leaf a space,
the dotted key, an equal sign and the value under smart quoting; nothing when
there are none) and a line feed, and returns the error of that write; for level
INFO, message `Just a message` and no attributes the write is the time followed
by ` INFO Just a message` and a line feed. -/
theorem default_format_end_to_end {ω : Type} (host : Host)
    (writer : Buf → ω → Option GoError × ω) (buffer : Buf) (c : Context) (r : Record)
    (out : Output ω) :
    (∀ ctx l, (infoWriterSink host writer buffer).Enabled ctx l = true ↔ LevelInfo ≤ l) ∧
    ((infoWriterSink host writer buffer).Handle c r out).2.2.writes
      = out.writes ++
          [(host.timeFormat r.Time "2006-01-02 15:04:05").toList ++ " ".toList ++
            (levelString r.Level).toList ++ " ".toList ++ r.Message.toList ++
            (scalarLeavesList [] r.attrs).flatMap (leafText host QuoteSmart) ++
            [Char.ofNat 10]] ∧
    ((infoWriterSink host writer buffer).Handle c r out).1
      = (writer
          ((host.timeFormat r.Time "2006-01-02 15:04:05").toList ++ " ".toList ++
            (levelString r.Level).toList ++ " ".toList ++ r.Message.toList ++
            (scalarLeavesList [] r.attrs).flatMap (leafText host QuoteSmart) ++
            [Char.ofNat 10]) out.state).1 ∧
    (r.attrs = [] → (scalarLeavesList [] r.attrs).flatMap (leafText host QuoteSmart) = []) ∧
    (r.Level = LevelInfo → r.Message = "Just a message" → r.attrs = [] →
      ((infoWriterSink host writer buffer).Handle c r out).2.2.writes
        = out.writes ++
            [(host.timeFormat r.Time "2006-01-02 15:04:05").toList ++
              " INFO Just a message\n".toList]) := by
  have hw : ((infoWriterSink host writer buffer).Handle c r out).2.2.writes
      = out.writes ++
          [(host.timeFormat r.Time "2006-01-02 15:04:05").toList ++ " ".toList ++
            (levelString r.Level).toList ++ " ".toList ++ r.Message.toList ++
            (scalarLeavesList [] r.attrs).flatMap (leafText host QuoteSmart) ++
            [Char.ofNat 10]] := by
    simp only [WriterSink.Handle, infoWriterSink, List.take_zero, defaultFormat_append,
      List.nil_append]
  refine ⟨?_, hw, ?_, ?_, ?_⟩
  · intro ctx l
    simp [WriterSink.Enabled, infoWriterSink]
  · simp only [WriterSink.Handle, infoWriterSink, List.take_zero, defaultFormat_append,
      List.nil_append]
  · intro he
    rw [he]
    rfl
  · intro hl hm he
    rw [hw, hl, hm, he]
    simp only [scalarLeavesList, List.flatMap_nil, List.append_nil, List.append_assoc]
    rfl

/-! ## The fan-out sink: `AddSink` -/

theorem set_take_succ (A : List Sink) (n : Nat) (v : Sink) (hn : n < A.length) :
    (A.set n v).take (n + 1) = A.take n ++ [v] := by
  apply List.ext_getElem?
  intro j
  by_cases hj : j < n
  · have hne : ¬ n = j := by omega
    have hj1 : j < n + 1 := by omega
    have hjt : j < (A.take n).length := by simp; omega
    simp [List.getElem?_take, List.getElem?_set, hne, hj1, hj, List.getElem?_append_left hjt]
  · by_cases hjn : j = n
    · subst hjn
      have hle : (A.take j).length ≤ j := by simp
      rw [List.getElem?_append_right hle]
      simp [List.getElem?_take, List.getElem?_set, hn, Nat.min_eq_left (Nat.le_of_lt hn)]
    · have hgt : n + 1 ≤ j := by omega
      have hle : (A.take n).length ≤ j := by simp; omega
      rw [List.getElem?_append_right hle]
      have hlen : (A.take n).length = n := by simp; omega
      have hj2 : ¬ j < n + 1 := by omega
      have hj3 : j - n ≠ 0 := by omega
      simp [List.getElem?_take, hj2, hlen]
      omega

theorem goAppend_wf_elems (grow : Nat → Nat) (h : Heap) (s : Slice) (v : Sink)
    (harr : s.arr < h.arrays.length) (hlen : s.len ≤ s.cap h) :
    (goAppend grow h s v).2.elems (goAppend grow h s v).1 = s.elems h ++ [v] ∧
      (goAppend grow h s v).2.arr < (goAppend grow h s v).1.arrays.length ∧
      (goAppend grow h s v).2.len ≤ (goAppend grow h s v).2.cap (goAppend grow h s v).1 := by
  unfold goAppend
  by_cases hc : s.len < s.cap h
  · simp only [hc, if_true]
    simp only [Slice.cap] at hc hlen
    refine ⟨?_, ?_, ?_⟩
    · simp only [Slice.elems, load_store_same h s.arr s.len v harr]
      exact set_take_succ (h.load s.arr) s.len v hc
    · simpa [store_arrays_length] using harr
    · simp only [Slice.cap, load_store_same h s.arr s.len v harr, List.length_set]
      omega
  · simp only [hc, if_false]
    simp only [Slice.cap] at hc hlen
    have hel : (s.elems h).length = s.len := by
      simp only [Slice.elems, List.length_take]
      omega
    have hload : ∀ xs : List Sink, (h.alloc xs).1.load (h.alloc xs).2 = xs := by
      intro xs
      simp [Heap.alloc, Heap.load, List.getD_eq_getElem?_getD]
    refine ⟨?_, ?_, ?_⟩
    · simp only [Slice.elems, hload]
      have hl2 : (List.take s.len (h.load s.arr) ++ [v]).length = s.len + 1 := by
        simp only [List.length_append, List.length_singleton, List.length_take]
        omega
      exact List.take_left' hl2
    · simp [Heap.alloc]
    · simp only [Slice.cap, hload, List.length_append, List.length_singleton,
        List.length_replicate, hel]
      omega

theorem addSink_wf_elems (grow : Nat → Nat) (h : Heap) (f : FanOutSink) (hwf : f.WF h)
    (s : Sink) :
    (f.AddSink grow h s).2.getSinks.elems (f.AddSink grow h s).1 = f.getSinks.elems h ++ [s] ∧
      (f.AddSink grow h s).2.WF (f.AddSink grow h s).1 := by
  obtain ⟨h1, h2, h3⟩ := goAppend_wf_elems grow h f.sinks s hwf.1 hwf.2
  exact ⟨h1, h2, h3⟩

/-- C21: for every well-formed fan-out with member list `L` and every sink
`s`, after `AddSink(s)` the member list is `L` followed by `s`, whether the
append wrote in place or moved to a larger array; a following `Handle` of an
event then invokes the enabled members of `L` in order and after them `s`,
once, exactly when `s` is enabled for the level of the event. -/
theorem addSink_appends {σ : Type} (env : SinkEnv σ) (grow : Nat → Nat) (h : Heap)
    (f : FanOutSink) (hwf : f.WF h) (s : Sink) :
    (f.AddSink grow h s).2.getSinks.elems (f.AddSink grow h s).1 = f.getSinks.elems h ++ [s] ∧
    (f.AddSink grow h s).2.WF (f.AddSink grow h s).1 ∧
    ∀ (S : List SinkRef) (r : SinkRef), f.getSinks.elems h = S.map some → s = some r →
      ∀ (ctx : Context) (record : Record) (w : World σ),
        ∃ res : Option GoError × World σ,
          (f.AddSink grow h s).2.Handle env (f.AddSink grow h s).1 ctx record w = some res ∧
          res.2.calls = w.calls ++
            (S.filter fun x => env.enabled x ctx record.Level).map
              (fun x => Call.mk x ctx record) ++
            (if env.enabled r ctx record.Level = true then [Call.mk r ctx record] else []) := by
  obtain ⟨h1, h2⟩ := addSink_wf_elems grow h f hwf s
  refine ⟨h1, h2, ?_⟩
  intro S r hS hs ctx record w
  have hm : (f.AddSink grow h s).2.getSinks.elems (f.AddSink grow h s).1
      = (S ++ [r]).map some := by
    rw [h1, hS, hs]
    simp
  refine ⟨_, fanOut_handle_members env _ _ (S ++ [r]) hm ctx record w, ?_⟩
  simp only [List.filter_append, List.map_append, List.append_assoc]
  congr 2
  by_cases he : env.enabled r ctx record.Level = true
  · simp [List.filter_cons, he]
  · simp [List.filter_cons, he]

theorem addSink_appends_witness :
    exampleFanOut.2.WF exampleFanOut.1 ∧
    ((exampleFanOut.2.AddSink (fun c => 2 * c) exampleFanOut.1 (some 5)).2.getSinks.elems
        (exampleFanOut.2.AddSink (fun c => 2 * c) exampleFanOut.1 (some 5)).1
      = exampleFanOut.2.getSinks.elems exampleFanOut.1 ++ [some 5] ∧
    (exampleFanOut.2.AddSink (fun c => 2 * c) exampleFanOut.1 (some 5)).2.WF
      (exampleFanOut.2.AddSink (fun c => 2 * c) exampleFanOut.1 (some 5)).1 ∧
    ∀ (S : List SinkRef) (r : SinkRef),
      exampleFanOut.2.getSinks.elems exampleFanOut.1 = S.map some → some 5 = some r →
      ∀ (ctx : Context) (record : Record) (w : World Nat),
        ∃ res : Option GoError × World Nat,
          (exampleFanOut.2.AddSink (fun c => 2 * c) exampleFanOut.1 (some 5)).2.Handle exampleEnv
              (exampleFanOut.2.AddSink (fun c => 2 * c) exampleFanOut.1 (some 5)).1 ctx record w
            = some res ∧
          res.2.calls = w.calls ++
            (S.filter fun x => exampleEnv.enabled x ctx record.Level).map
              (fun x => Call.mk x ctx record) ++
            (if exampleEnv.enabled r ctx record.Level = true then [Call.mk r ctx record]
              else [])) :=
  ⟨by decide,
    addSink_appends exampleEnv (fun c => 2 * c) exampleFanOut.1 exampleFanOut.2 (by decide)
      (some 5)⟩

/-! ## The handler chain: two attribute nodes -/

/-- C23: for every sink, all non-empty lists `A` and `B` of scalar attributes
and every event with attributes `E`, `NewHandler(sink).WithAttrs(A).WithAttrs(B)`
hands to the sink the event with the same time, level, message and program
counter whose attributes are `E` followed by `B` followed by `A`: the node
derived last is applied first, and each node appends its attributes after
those already present. -/
theorem attrs_nodes_last_first {σ : Type} (env : SinkEnv σ) (sink : Sink)
    (A B : List (String × Scalar)) (hA : A ≠ []) (hB : B ≠ [])
    (ctx : Context) (record : Record) (w : World σ) :
    ((NewHandler sink).WithAttrs (scalarAttrs A)).WithAttrs (scalarAttrs B)
        = Handler.attrsHandler (Handler.attrsHandler (Handler.sinkHandler sink) (scalarAttrs A))
            (scalarAttrs B) ∧
      (((NewHandler sink).WithAttrs (scalarAttrs A)).WithAttrs (scalarAttrs B)).Handle
          env ctx record w
        = sink.Handle env ctx
            { Time := record.Time, Message := record.Message, Level := record.Level,
              PC := record.PC,
              attrs := record.attrs ++ scalarAttrs B ++ scalarAttrs A } w := by
  have hkA := filter_nonEmpty_eq_self (scalarAttrs A) (scalarAttrs_not_empty_group A)
  have hkB := filter_nonEmpty_eq_self (scalarAttrs B) (scalarAttrs_not_empty_group B)
  have h1 : ((NewHandler sink).WithAttrs (scalarAttrs A)).WithAttrs (scalarAttrs B)
      = Handler.attrsHandler (Handler.attrsHandler (Handler.sinkHandler sink) (scalarAttrs A))
          (scalarAttrs B) := by
    rw [withAttrs_scalars _ A hA, withAttrs_scalars _ B hB]
    rfl
  refine ⟨h1, ?_⟩
  rw [h1]
  simp only [Handler.Handle, Record.AddAttrs, hkA, hkB]

theorem attrs_nodes_last_first_witness :
    oneScalar ≠ [] ∧ otherScalar ≠ [] ∧
    (((NewHandler (some 1)).WithAttrs (scalarAttrs oneScalar)).WithAttrs (scalarAttrs otherScalar)
        = Handler.attrsHandler
            (Handler.attrsHandler (Handler.sinkHandler (some 1)) (scalarAttrs oneScalar))
            (scalarAttrs otherScalar) ∧
      (((NewHandler (some 1)).WithAttrs (scalarAttrs oneScalar)).WithAttrs
          (scalarAttrs otherScalar)).Handle exampleEnv 0 exampleRecord exampleWorld
        = Sink.Handle exampleEnv (some 1) 0
            { Time := exampleRecord.Time, Message := exampleRecord.Message,
              Level := exampleRecord.Level, PC := exampleRecord.PC,
              attrs := exampleRecord.attrs ++ scalarAttrs otherScalar ++ scalarAttrs oneScalar }
            exampleWorld) :=
  ⟨by decide, by decide,
    attrs_nodes_last_first exampleEnv (some 1) oneScalar otherScalar (by decide) (by decide) 0
      exampleRecord exampleWorld⟩

/-! ## Empty templates -/

theorem fmtExtra_cons_head (a : Buf) (args : List Buf) :
    ∃ t, fmtExtra (a :: args) = "%!(EXTRA ".toList ++ t := by
  exact ⟨_, rfl⟩

/-- C22, as stated, fails as soon as there is an operand: with an empty
template `fmt.Appendf` reports the operands it did not use. The layout with the
empty template and the one child `Level` renders an INFO event as
`%!(EXTRA []uint8=[73 78 70 79])`, and the conditional with the empty template
renders an inner text `c` as `%!(EXTRA []uint8=[99])`, not as nothing. -/
theorem empty_template_counterexample :
    (Formatter.Layout "" [Formatter.Level]).Append exampleHost [] 0 bareRecord
        = "%!(EXTRA []uint8=[73 78 70 79])".toList ∧
      (Formatter.Conditional "" (testFormatter "c")).Append exampleHost [] 0 bareRecord
        = "%!(EXTRA []uint8=[99])".toList := by
  decide

/-- C22, amended: formatting always returns. A layout with an empty template
and no child, and a conditional with an empty template whose inner formatter
renders the empty string, return the buffer unchanged; a layout with an empty
template and children returns the buffer followed by the report of the unused
operands, `%!(EXTRA ` and one entry per child, and so does a conditional with
an empty template whose inner formatter renders a text that is not empty. -/
theorem empty_template_reports_extra (host : Host) (b : Buf) (c : Context) (r : Record) :
    (Formatter.Layout "" []).Append host b c r = b ∧
    (∀ (f : Formatter) (rest : List Formatter),
      (Formatter.Layout "" (f :: rest)).Append host b c r
        = b ++ fmtExtra (Formatter.appendArgs host (f :: rest) [] c r) ∧
      ∃ t, (Formatter.Layout "" (f :: rest)).Append host b c r
        = b ++ ("%!(EXTRA ".toList ++ t)) ∧
    (∀ inner : Formatter, inner.Append host [] c r = [] →
      (Formatter.Conditional "" inner).Append host b c r = b) ∧
    (∀ inner : Formatter, inner.Append host [] c r ≠ [] →
      (Formatter.Conditional "" inner).Append host b c r
        = b ++ fmtExtra [inner.Append host [] c r] ∧
      ∃ t, (Formatter.Conditional "" inner).Append host b c r
        = b ++ ("%!(EXTRA ".toList ++ t)) := by
  refine ⟨?_, ?_, ?_, ?_⟩
  · simp [Formatter.Append, Formatter.appendArgs, fmtAppendf, doPrintf, fmtExtra]
  · intro f rest
    have h1 : (Formatter.Layout "" (f :: rest)).Append host b c r
        = b ++ fmtExtra (Formatter.appendArgs host (f :: rest) [] c r) := by
      simp only [Formatter.Append, fmtAppendf]
      rfl
    refine ⟨h1, ?_⟩
    rw [h1]
    simp only [Formatter.appendArgs]
    obtain ⟨t, ht⟩ := fmtExtra_cons_head
      ((f.Append host [] c r).drop ([] : Buf).length)
      (Formatter.appendArgs host rest (f.Append host [] c r) c r)
    exact ⟨t, by rw [ht]⟩
  · intro inner he
    simp [Formatter.Append, he]
  · intro inner hne
    have hlen : (inner.Append host [] c r).length ≠ 0 := fun e => hne (List.length_eq_zero.1 e)
    have h1 : (Formatter.Conditional "" inner).Append host b c r
        = b ++ fmtExtra [inner.Append host [] c r] := by
      simp only [Formatter.Append, hlen, ne_eq, not_false_eq_true, if_true, fmtAppendf]
      rfl
    refine ⟨h1, ?_⟩
    rw [h1]
    obtain ⟨t, ht⟩ := fmtExtra_cons_head (inner.Append host [] c r) []
    exact ⟨t, by rw [ht]⟩

end Yall
